import Mathlib

/-!
Verification development for the real-time market-data distribution pipeline
of the india-trading-analysis-platform repository.

The JavaScript source is shallowly embedded: JS `Map` objects become
association lists preserving insertion order, JS `Set` objects become
duplicate-free lists preserving insertion order, JS numbers become rationals
(integers where the source only ever holds integers), `Math.random()` draws
become explicit rational parameters in `[0,1)`, wall-clock instants become
integer milliseconds, and the JSON text stored in Redis is modelled as a list
of JSON leaf tokens together with an executable encoder and decoder.
Fallible operations return `Option` or `Bool` results exactly where the
source returns `null`/`false`.
-/

/-! ## Association-list model of JS Map and Set -/

/-- Lookup in a JS Map modelled as an association list (first match wins;
JS maps never hold a key twice, which the registry invariant records). -/
def mapGet {α : Type} : List (String × α) → String → Option α
  | [], _ => none
  | (k, v) :: m, key => if k = key then some v else mapGet m key

/-- JS `Map.prototype.set`: replace in place when the key exists, else append,
preserving insertion order. -/
def mapSet {α : Type} : List (String × α) → String → α → List (String × α)
  | [], key, v => [(key, v)]
  | (k, w) :: m, key, v => if k = key then (key, v) :: m else (k, w) :: mapSet m key v

/-- JS `Map.prototype.delete`. -/
def mapDel {α : Type} : List (String × α) → String → List (String × α)
  | [], _ => []
  | (k, v) :: m, key => if k = key then m else (k, v) :: mapDel m key

/-- JS `Set.prototype.add`: append at the end unless already present. -/
def setAdd (a : String) (s : List String) : List String :=
  if a ∈ s then s else s ++ [a]

/-- JS `Set.prototype.delete`. -/
def setDel (a : String) (s : List String) : List String := s.erase a

/-- The keys of a modelled JS Map. -/
def mapKeys {α : Type} (m : List (String × α)) : List String := m.map Prod.fst

variable {α : Type}

theorem mapGet_not_mem (m : List (String × α)) (k : String)
    (h : k ∉ mapKeys m) : mapGet m k = none := by
  induction m with
  | nil => rfl
  | cons p m ih =>
    obtain ⟨k0, w⟩ := p
    simp only [mapKeys, List.map_cons, List.mem_cons, not_or] at h
    rw [mapGet, if_neg (fun hh => h.1 hh.symm)]
    exact ih h.2

theorem mapGet_mapSet_self (m : List (String × α)) (k : String) (v : α) :
    mapGet (mapSet m k v) k = some v := by
  induction m with
  | nil => simp [mapSet, mapGet]
  | cons p m ih =>
    obtain ⟨k', w⟩ := p
    by_cases h : k' = k
    · rw [mapSet, if_pos h, mapGet, if_pos rfl]
    · rw [mapSet, if_neg h, mapGet, if_neg h]
      exact ih

theorem mapGet_mapSet_ne (m : List (String × α)) (k k' : String) (v : α)
    (h : k' ≠ k) : mapGet (mapSet m k v) k' = mapGet m k' := by
  induction m with
  | nil =>
    simp only [mapSet, mapGet]
    rw [if_neg (fun hh => h hh.symm)]
  | cons p m ih =>
    obtain ⟨k0, w⟩ := p
    by_cases h0 : k0 = k
    · subst h0
      rw [mapSet, if_pos rfl, mapGet, mapGet, if_neg (fun hh : k0 = k' => h hh.symm),
        if_neg (fun hh : k0 = k' => h hh.symm)]
    · rw [mapSet, if_neg h0, mapGet, mapGet]
      by_cases h1 : k0 = k'
      · rw [if_pos h1, if_pos h1]
      · rw [if_neg h1, if_neg h1, ih]

theorem mapGet_mapDel_ne (m : List (String × α)) (k k' : String)
    (h : k' ≠ k) : mapGet (mapDel m k) k' = mapGet m k' := by
  induction m with
  | nil => rfl
  | cons p m ih =>
    obtain ⟨k0, w⟩ := p
    by_cases h0 : k0 = k
    · subst h0
      rw [mapDel, if_pos rfl, mapGet, if_neg (fun hh : k0 = k' => h hh.symm)]
    · rw [mapDel, if_neg h0, mapGet, mapGet]
      by_cases h1 : k0 = k'
      · rw [if_pos h1, if_pos h1]
      · rw [if_neg h1, if_neg h1, ih]

theorem mapGet_mapDel_self (m : List (String × α)) (k : String)
    (hnd : (mapKeys m).Nodup) : mapGet (mapDel m k) k = none := by
  induction m with
  | nil => rfl
  | cons p m ih =>
    obtain ⟨k0, w⟩ := p
    simp only [mapKeys, List.map_cons, List.nodup_cons] at hnd
    by_cases h0 : k0 = k
    · subst h0
      rw [mapDel, if_pos rfl]
      exact mapGet_not_mem m k0 hnd.1
    · rw [mapDel, if_neg h0, mapGet, if_neg h0]
      exact ih hnd.2

theorem mapKeys_mapSet_eq (m : List (String × α)) (k : String) (v : α) :
    mapKeys (mapSet m k v) = if k ∈ mapKeys m then mapKeys m else mapKeys m ++ [k] := by
  induction m with
  | nil => simp [mapSet, mapKeys]
  | cons q m ihq =>
    obtain ⟨k1, u⟩ := q
    by_cases h1 : k1 = k
    · subst h1
      simp [mapSet, mapKeys]
    · rw [mapSet, if_neg h1]
      simp only [mapKeys, List.map_cons, List.mem_cons] at *
      rw [ihq]
      by_cases h2 : k ∈ List.map Prod.fst m
      · rw [if_pos h2, if_pos (Or.inr h2)]
      · rw [if_neg h2, if_neg (not_or.mpr ⟨fun hh => h1 hh.symm, h2⟩), List.cons_append]

theorem mapKeys_mapSet (m : List (String × α)) (k : String) (v : α)
    (hnd : (mapKeys m).Nodup) : (mapKeys (mapSet m k v)).Nodup := by
  rw [mapKeys_mapSet_eq]
  by_cases h2 : k ∈ mapKeys m
  · rwa [if_pos h2]
  · rw [if_neg h2]
    simp only [List.nodup_append, List.nodup_singleton, List.disjoint_singleton]
    exact ⟨hnd, trivial, h2⟩

theorem mapDel_sublist (m : List (String × α)) (k : String) :
    (mapDel m k).Sublist m := by
  induction m with
  | nil => simp [mapDel]
  | cons p m ih =>
    obtain ⟨k0, w⟩ := p
    by_cases h0 : k0 = k
    · rw [mapDel, if_pos h0]
      exact List.sublist_cons_self _ _
    · rw [mapDel, if_neg h0]
      exact List.Sublist.cons₂ _ ih

theorem mapKeys_mapDel (m : List (String × α)) (k : String)
    (hnd : (mapKeys m).Nodup) : (mapKeys (mapDel m k)).Nodup := by
  exact List.Nodup.sublist (List.Sublist.map Prod.fst (mapDel_sublist m k)) hnd

theorem setAdd_nodup (a : String) (s : List String) (h : s.Nodup) : (setAdd a s).Nodup := by
  unfold setAdd
  by_cases hm : a ∈ s
  · simpa [hm]
  · simp only [if_neg hm, List.nodup_append, List.nodup_singleton, List.disjoint_singleton]
    exact ⟨h, trivial, hm⟩

theorem mem_setAdd (a b : String) (s : List String) : b ∈ setAdd a s ↔ b ∈ s ∨ b = a := by
  unfold setAdd
  by_cases hm : a ∈ s
  · simp only [if_pos hm]
    constructor
    · exact Or.inl
    · rintro (h | rfl)
      · exact h
      · exact hm
  · simp [if_neg hm]

theorem setAdd_mem_eq (a : String) (s : List String) (h : a ∈ s) : setAdd a s = s := by
  simp [setAdd, h]

theorem mapSet_get_eq {α : Type} (m : List (String × α)) (k : String) (v : α)
    (h : mapGet m k = some v) : mapSet m k v = m := by
  induction m with
  | nil => simp [mapGet] at h
  | cons p m ih =>
    obtain ⟨k0, w⟩ := p
    by_cases h0 : k0 = k
    · subst h0
      rw [mapGet, if_pos rfl] at h
      injection h with h
      rw [mapSet, if_pos rfl, h]
    · simp only [mapGet, if_neg h0] at h
      simp [mapSet, h0, ih h]

/-! ## Data model and JSON serialization

`MarketSample` and `AggregatedRecord` follow the objects built in
`marketDataService.js`. ISO timestamp strings are modelled by the integer
instant they render. The JSON text produced by `JSON.stringify` and read
back by `JSON.parse` is modelled as a list of JSON leaf tokens; `encodeRec`
and `decodeRec` are the executable stringify/parse pair for the records this
service stores, and decoding is a real partial function that fails on any
list not of the encoded shape. The opaque technical and sentiment payloads
are modelled as raw strings. -/

structure MarketSample where
  symbol : String
  timestamp : Int
  open_price : ℚ
  high_price : ℚ
  low_price : ℚ
  close_price : ℚ
  volume : Int
  change : ℚ
  change_percent : ℚ
  is_market_open : Bool
deriving DecidableEq, Repr

structure AggregatedRecord where
  symbol : String
  timestamp : Int
  market : Option MarketSample
  technical : Option String
  sentiment : Option String
  lastUpdated : Int
deriving DecidableEq, Repr

inductive JLeaf
  | jnull
  | jbool (b : Bool)
  | jint (n : Int)
  | jnum (q : ℚ)
  | jstr (s : String)
deriving DecidableEq, Repr

def encodeSample (m : MarketSample) : List JLeaf :=
  [.jstr m.symbol, .jint m.timestamp, .jnum m.open_price, .jnum m.high_price,
   .jnum m.low_price, .jnum m.close_price, .jint m.volume, .jnum m.change,
   .jnum m.change_percent, .jbool m.is_market_open]

def encodeOptSample : Option MarketSample → List JLeaf
  | none => [.jnull]
  | some m => encodeSample m

def encodeOptStr : Option String → List JLeaf
  | none => [.jnull]
  | some s => [.jstr s]

def encodeRec (r : AggregatedRecord) : List JLeaf :=
  [.jstr r.symbol, .jint r.timestamp] ++ encodeOptSample r.market
    ++ encodeOptStr r.technical ++ encodeOptStr r.sentiment ++ [.jint r.lastUpdated]

def decodeOptSample : List JLeaf → Option (Option MarketSample × List JLeaf)
  | .jnull :: rest => some (none, rest)
  | .jstr a :: .jint b :: .jnum c :: .jnum d :: .jnum e :: .jnum f :: .jint g
      :: .jnum h :: .jnum i :: .jbool j :: rest =>
    some (some ⟨a, b, c, d, e, f, g, h, i, j⟩, rest)
  | _ => none

def decodeOptStr : List JLeaf → Option (Option String × List JLeaf)
  | .jnull :: rest => some (none, rest)
  | .jstr s :: rest => some (some s, rest)
  | _ => none

def decodeRec (l : List JLeaf) : Option AggregatedRecord :=
  match l with
  | .jstr sym :: .jint ts :: rest =>
    match decodeOptSample rest with
    | none => none
    | some (mkt, rest1) =>
      match decodeOptStr rest1 with
      | none => none
      | some (tech, rest2) =>
        match decodeOptStr rest2 with
        | none => none
        | some (sent, rest3) =>
          match rest3 with
          | [.jint lu] => some ⟨sym, ts, mkt, tech, sent, lu⟩
          | _ => none
  | _ => none

theorem decodeOptSample_encode (m : Option MarketSample) (rest : List JLeaf) :
    decodeOptSample (encodeOptSample m ++ rest) = some (m, rest) := by
  cases m with
  | none => rfl
  | some s => rfl

theorem decodeOptStr_encode (s : Option String) (rest : List JLeaf) :
    decodeOptStr (encodeOptStr s ++ rest) = some (s, rest) := by
  cases s with
  | none => rfl
  | some s => rfl

theorem decodeRec_encodeRec (r : AggregatedRecord) : decodeRec (encodeRec r) = some r := by
  obtain ⟨sym, ts, mkt, tech, sent, lu⟩ := r
  simp only [encodeRec, List.cons_append, List.nil_append, decodeRec, List.append_assoc,
    decodeOptSample_encode, decodeOptStr_encode]

/-! ## Cache Store: RedisService

Embedding of `redisService.js`. The Redis string store is a key/value map
whose values carry the serialized record and an optional absolute expiry
instant (`setEx key ttl value` sets expiry `now + ttl * 1000` milliseconds;
a plain `set` leaves no expiry, which is what the source does when
`expireInSeconds` is falsy). A stored entry is visible to `get` only while
`now` is strictly before its expiry, which is Redis's native auto-expiry.
Every operation first checks `isConnected` and throws when disconnected; the
source catches all errors and returns `false` (or `null` for `get`). Each
operation also reports the list of calls it issued to the underlying client,
so that the absence of internal retries is a provable statement. The
`callFails` flag models the underlying client call itself throwing. -/

structure BusMsg where
  type : String
  symbol : String
  data : Option AggregatedRecord
deriving DecidableEq, Repr

def encodeBusMsg (m : BusMsg) : List JLeaf :=
  .jstr m.type :: .jstr m.symbol ::
    (match m.data with
     | none => [.jnull]
     | some r => encodeRec r)

structure RedisState where
  connected : Bool
  store : List (String × (List JLeaf × Option Int))
deriving DecidableEq, Repr

inductive ClientCall
  | setEx (key : String) (ttlSeconds : Int) (value : List JLeaf)
  | setPlain (key : String) (value : List JLeaf)
  | getCall (key : String)
  | delCall (key : String)
  | publishCall (channel : String) (message : List JLeaf)
  | subscribeCall (channel : String)
deriving DecidableEq, Repr

/-- Whether a stored entry is still visible at instant `now`. -/
def aliveAt (expiry : Option Int) (now : Int) : Bool :=
  match expiry with
  | none => true
  | some e => decide (now < e)

namespace RedisService

/-- Embeds `RedisService.set` (lines 54-73): throw when not connected,
serialize, `setEx` when a truthy TTL was given and plain `set` otherwise,
return `true` on success; any error is caught and yields `false`. -/
def set (st : RedisState) (key : String) (value : AggregatedRecord)
    (expireInSeconds : Int) (now : Int) (callFails : Bool) :
    RedisState × Bool × List ClientCall :=
  if st.connected = false then (st, false, [])
  else
    let serialized := encodeRec value
    if expireInSeconds ≠ 0 then
      if callFails then (st, false, [.setEx key expireInSeconds serialized])
      else ({ st with store := mapSet st.store key (serialized, some (now + expireInSeconds * 1000)) },
        true, [.setEx key expireInSeconds serialized])
    else
      if callFails then (st, false, [.setPlain key serialized])
      else ({ st with store := mapSet st.store key (serialized, none) },
        true, [.setPlain key serialized])

/-- Embeds `RedisService.get` (lines 75-87): throw when not connected, read
the key (absent or expired reads as null), parse a present value; errors are
caught and yield `null`. -/
def get (st : RedisState) (key : String) (now : Int) (callFails : Bool) :
    Option AggregatedRecord × List ClientCall :=
  if st.connected = false then (none, [])
  else if callFails then (none, [.getCall key])
  else
    match mapGet st.store key with
    | some (serialized, expiry) =>
      (if aliveAt expiry now then decodeRec serialized else none, [.getCall key])
    | none => (none, [.getCall key])

/-- Embeds `RedisService.del` (lines 89-101). -/
def del (st : RedisState) (key : String) (callFails : Bool) :
    RedisState × Bool × List ClientCall :=
  if st.connected = false then (st, false, [])
  else if callFails then (st, false, [.delCall key])
  else ({ st with store := mapDel st.store key }, true, [.delCall key])

/-- Embeds `RedisService.publish` (lines 117-130): serialize and publish,
`true` on success, caught error yields `false`. -/
def publish (st : RedisState) (channel : String) (message : BusMsg) (callFails : Bool) :
    Bool × List ClientCall :=
  if st.connected = false then (false, [])
  else if callFails then (false, [.publishCall channel (encodeBusMsg message)])
  else (true, [.publishCall channel (encodeBusMsg message)])

/-- Embeds `RedisService.subscribe` (lines 132-153), observed up to the
registration call itself. -/
def subscribe (st : RedisState) (channel : String) (callFails : Bool) :
    Bool × List ClientCall :=
  if st.connected = false then (false, [])
  else if callFails then (false, [.subscribeCall channel])
  else (true, [.subscribeCall channel])

end RedisService

/-- A concrete record used by witnesses. -/
def sampleRec : AggregatedRecord :=
  { symbol := "NIFTY", timestamp := 0, market := none, technical := some "t",
    sentiment := none, lastUpdated := 0 }

/-- C6: for every valid key, value and positive ttl on a connected store, put
followed by get of the same key strictly before the ttl elapses returns a
value equal to the one stored (round-tripping through serialization); get at
or after the ttl elapses returns not-found; and put overwrites whatever entry
the key held, setting the absolute expiry now plus ttl. -/
theorem redis_put_get_ttl (st : RedisState) (key : String) (v : AggregatedRecord)
    (ttl now t : Int) (hc : st.connected = true) (ht : 0 < ttl) :
    (RedisService.set st key v ttl now false).2.1 = true
    ∧ mapGet (RedisService.set st key v ttl now false).1.store key
        = some (encodeRec v, some (now + ttl * 1000))
    ∧ (t - now < ttl * 1000 →
        (RedisService.get (RedisService.set st key v ttl now false).1 key t false).1 = some v)
    ∧ (ttl * 1000 ≤ t - now →
        (RedisService.get (RedisService.set st key v ttl now false).1 key t false).1 = none) := by
  have hset : RedisService.set st key v ttl now false
      = ({ st with store := mapSet st.store key (encodeRec v, some (now + ttl * 1000)) },
         true, [.setEx key ttl (encodeRec v)]) := by
    unfold RedisService.set
    rw [if_neg (by simp [hc]), if_pos (by omega), if_neg Bool.false_ne_true]
  refine ⟨by rw [hset], by rw [hset]; exact mapGet_mapSet_self _ _ _, ?_, ?_⟩
  · intro hfresh
    rw [hset]
    unfold RedisService.get
    rw [if_neg (by simp [hc]), if_neg Bool.false_ne_true]
    simp only [mapGet_mapSet_self]
    rw [if_pos (by unfold aliveAt; simp only [decide_eq_true_eq]; omega)]
    exact decodeRec_encodeRec v
  · intro hstale
    rw [hset]
    unfold RedisService.get
    rw [if_neg (by simp [hc]), if_neg Bool.false_ne_true]
    simp only [mapGet_mapSet_self]
    rw [if_neg (by unfold aliveAt; simp only [decide_eq_true_eq]; omega)]

/-- Witness for redis_put_get_ttl at a concrete connected store, ttl 30s:
a get 1 second after the put returns the stored record, and the expiry
recorded is exactly 30000 ms after the put. -/
theorem redis_put_get_ttl_witness :
    (RedisService.set ⟨true, []⟩ "market_data:NIFTY" sampleRec 30 0 false).2.1 = true
    ∧ mapGet (RedisService.set ⟨true, []⟩ "market_data:NIFTY" sampleRec 30 0 false).1.store
        "market_data:NIFTY" = some (encodeRec sampleRec, some 30000)
    ∧ (RedisService.get (RedisService.set ⟨true, []⟩ "market_data:NIFTY" sampleRec 30 0 false).1
        "market_data:NIFTY" 1000 false).1 = some sampleRec := by
  have h := redis_put_get_ttl ⟨true, []⟩ "market_data:NIFTY" sampleRec 30 0 1000
    rfl (by norm_num)
  exact ⟨h.1, by simpa using h.2.1, h.2.2.1 (by norm_num)⟩

/-- C9 (amended): a connectivity failure (disconnected client, or the
underlying call throwing) makes set, del, publish and subscribe return false
while success returns true, so failure is distinguishable for them; get
returns null on failure, which coincides with the successful not-found
outcome; and no operation issues more than one underlying client call, so
nothing is retried internally. -/
theorem redis_failure_no_retry (st : RedisState) (key ch : String)
    (v : AggregatedRecord) (msg : BusMsg) (ttl now : Int) (cf : Bool)
    (hd : st.connected = false) :
    (RedisService.set st key v ttl now cf = (st, false, []))
    ∧ (RedisService.get st key now cf = (none, []))
    ∧ (RedisService.del st key cf = (st, false, []))
    ∧ (RedisService.publish st ch msg cf = (false, []))
    ∧ (RedisService.subscribe st ch cf = (false, []))
    ∧ (∀ st2 : RedisState, ∀ cf2 : Bool,
        ((RedisService.set st2 key v ttl now cf2).2.2).length ≤ 1
        ∧ ((RedisService.get st2 key now cf2).2).length ≤ 1
        ∧ ((RedisService.del st2 key cf2).2.2).length ≤ 1
        ∧ ((RedisService.publish st2 ch msg cf2).2).length ≤ 1
        ∧ ((RedisService.subscribe st2 ch cf2).2).length ≤ 1)
    ∧ (∀ st2 : RedisState, st2.connected = true →
        (RedisService.set st2 key v ttl now true).2.1 = false
        ∧ (RedisService.get st2 key now true).1 = none
        ∧ (RedisService.del st2 key true).2.1 = false
        ∧ (RedisService.publish st2 ch msg true).1 = false
        ∧ (RedisService.subscribe st2 ch true).1 = false) := by
  refine ⟨?_, ?_, ?_, ?_, ?_, ?_, ?_⟩
  · unfold RedisService.set
    rw [if_pos hd]
  · unfold RedisService.get
    rw [if_pos hd]
  · unfold RedisService.del
    rw [if_pos hd]
  · unfold RedisService.publish
    rw [if_pos hd]
  · unfold RedisService.subscribe
    rw [if_pos hd]
  · intro st2 cf2
    refine ⟨?_, ?_, ?_, ?_, ?_⟩
    · unfold RedisService.set
      split
      · simp
      · split
        · split <;> simp
        · split <;> simp
    · unfold RedisService.get
      split
      · simp
      · split
        · simp
        · split <;> simp
    · unfold RedisService.del
      split
      · simp
      · split <;> simp
    · unfold RedisService.publish
      split
      · simp
      · split <;> simp
    · unfold RedisService.subscribe
      split
      · simp
      · split <;> simp
  · intro st2 h2
    have h2f : ¬ st2.connected = false := by simp [h2]
    refine ⟨?_, ?_, ?_, ?_, ?_⟩
    · unfold RedisService.set
      rw [if_neg h2f]
      split <;> rw [if_pos rfl]
    · unfold RedisService.get
      rw [if_neg h2f, if_pos rfl]
    · unfold RedisService.del
      rw [if_neg h2f, if_pos rfl]
    · unfold RedisService.publish
      rw [if_neg h2f, if_pos rfl]
    · unfold RedisService.subscribe
      rw [if_neg h2f, if_pos rfl]

/-- Witness for redis_failure_no_retry at a disconnected concrete store. -/
theorem redis_failure_no_retry_witness :
    RedisService.get ⟨false, []⟩ "k" 0 false = (none, [])
    ∧ RedisService.set ⟨false, []⟩ "k" sampleRec 30 0 false = (⟨false, []⟩, false, []) := by
  have h := redis_failure_no_retry ⟨false, []⟩ "k" "ch" sampleRec
    ⟨"market_data", "NIFTY", none⟩ 30 0 false rfl
  exact ⟨h.2.1, h.1⟩

/-- Counterexample to C9 as stated: for get, a connectivity failure is not
distinguishable from a successful outcome. A disconnected get of a key the
store actually holds returns null, exactly the value a connected get of an
absent key returns; the caller sees identical results. -/
theorem redis_get_not_distinguishable :
    (RedisService.get ⟨false, [("k", (encodeRec sampleRec, none))]⟩ "k" 0 false).1 = none
    ∧ (RedisService.get ⟨true, []⟩ "k" 0 false).1 = none := by
  constructor <;> rfl

/-! ## Aggregator: MarketDataService

Embedding of `marketDataService.js`. `Math.random()` draws are passed in as
rational parameters `r1..r5` (each in `[0,1)`), in the order the source
consumes them; local wall-clock time for the market-hours rule is passed as
an hour and minute pair; `Date.now()` is the integer parameter `now`.
JavaScript `Math.round` is floor of the argument plus one half. Upstream
fetch outcomes are parameters: `none` stands for a request that failed, timed
out or returned a falsy body, `some` for a 2xx response with a truthy body. -/

/-- JS Math.round on a real argument. -/
def jsRound (x : ℚ) : Int := Int.floor (x + 1 / 2)

/-- Rounding a price to two decimals, as the source does everywhere. -/
def round2 (x : ℚ) : ℚ := (jsRound (x * 100) : ℚ) / 100

/-- Base price table of `generateMockMarketData` (line 131). -/
def basePriceOf (symbol : String) : ℚ :=
  if symbol = "NIFTY" then 21000
  else if symbol = "SENSEX" then 69000
  else if symbol = "BANKNIFTY" then 45000
  else 20000

/-- Base volume choice of `generateMockMarketData` (line 149). -/
def baseVolumeOf (symbol : String) : ℚ :=
  if symbol = "NIFTY" then 1000000 else if symbol = "SENSEX" then 800000 else 1200000

/-- Embeds `MarketDataService.isMarketOpen` (lines 166-174): encode the local
time as hour times 100 plus minute and compare against the 09:15-15:30
session window. -/
def isMarketOpen (hour minute : Nat) : Bool :=
  let currentTime := hour * 100 + minute
  decide (915 ≤ currentTime ∧ currentTime ≤ 1530)

/-- Embeds `MarketDataService.generateMockMarketData` (lines 129-164). -/
def generateMockMarketData (symbol : String) (r1 r2 r3 r4 r5 : ℚ)
    (hour minute : Nat) (now : Int) : MarketSample :=
  let basePrice := basePriceOf symbol
  let changePercent := (r1 - 1 / 2) * 4
  let currentPrice := basePrice * (1 + changePercent / 100)
  let openPrice := basePrice * (1 + (r2 - 1 / 2) * 2 / 100)
  let highPrice := max openPrice currentPrice * (1 + r3 * 1 / 100)
  let lowPrice := min openPrice currentPrice * (1 - r4 * 1 / 100)
  let baseVolume := baseVolumeOf symbol
  let volume := Int.floor (baseVolume * (4 / 5 + r5 * (2 / 5)))
  { symbol := symbol
    timestamp := now
    open_price := round2 openPrice
    high_price := round2 highPrice
    low_price := round2 lowPrice
    close_price := round2 currentPrice
    volume := volume
    change := round2 (currentPrice - basePrice)
    change_percent := round2 changePercent
    is_market_open := isMarketOpen hour minute }

/-- Per-cycle environment of one `updateSymbolData` run: the three upstream
outcomes, the random draws and local time consumed if the synthetic fallback
is generated, and whether the cache write and bus publish calls throw. -/
structure FetchEnv where
  marketUpstream : Option MarketSample
  technicalUpstream : Option String
  sentimentUpstream : Option String
  r1 : ℚ
  r2 : ℚ
  r3 : ℚ
  r4 : ℚ
  r5 : ℚ
  hour : Nat
  minute : Nat
  setFails : Bool
  publishFails : Bool

/-- Embeds `MarketDataService.fetchMarketData` (lines 79-95): any upstream
failure or falsy body is caught and the synthetic fallback sample is
returned instead; this function never fails. -/
def fetchMarketData (symbol : String) (env : FetchEnv) (now : Int) : MarketSample :=
  match env.marketUpstream with
  | some d => d
  | none => generateMockMarketData symbol env.r1 env.r2 env.r3 env.r4 env.r5 env.hour env.minute now

/-- Embeds `MarketDataService.updateSymbolData` (lines 42-77): settle the
three fetches, combine them into an `AggregatedRecord` (a failed technical or
sentiment fetch contributes null), cache the record under
`market_data:symbol` with a 300 second TTL, publish it on the
`market_updates` channel, and return it. Returns the state after the cache
write, the combined record, and the bus message handed to publish. -/
def updateSymbolData (st : RedisState) (symbol : String) (env : FetchEnv) (now : Int) :
    RedisState × AggregatedRecord × BusMsg :=
  let marketValue := fetchMarketData symbol env now
  let combinedData : AggregatedRecord :=
    { symbol := symbol
      timestamp := now
      market := some marketValue
      technical := env.technicalUpstream
      sentiment := env.sentimentUpstream
      lastUpdated := now }
  let st1 := (RedisService.set st ("market_data:" ++ symbol) combinedData 300 now env.setFails).1
  let msg : BusMsg := { type := "market_data", symbol := symbol, data := some combinedData }
  (st1, combinedData, msg)

/-- Embeds `MarketDataService.getLatestData` (lines 176-192): read the cache;
if a record is present and was last updated strictly less than 30000 ms ago,
return it; otherwise refresh the symbol synchronously and return the fresh
record. -/
def getLatestData (st : RedisState) (symbol : String) (now : Int) (env : FetchEnv)
    (getFails : Bool) : RedisState × Option AggregatedRecord :=
  let cachedData := (RedisService.get st ("market_data:" ++ symbol) now getFails).1
  match cachedData with
  | some r =>
    if now - r.lastUpdated < 30000 then (st, some r)
    else
      let u := updateSymbolData st symbol env now
      (u.1, some u.2.1)
  | none =>
    let u := updateSymbolData st symbol env now
    (u.1, some u.2.1)

theorem round2_int_bounds (x : ℚ) (a b : Int)
    (h1 : (a : ℚ) / 100 ≤ x) (h2 : x < (b : ℚ) / 100) :
    (a : ℚ) / 100 ≤ round2 x ∧ round2 x ≤ (b : ℚ) / 100 := by
  have h100 : (0 : ℚ) < 100 := by norm_num
  have h1' : (a : ℚ) ≤ x * 100 := by
    have h := mul_le_mul_of_nonneg_right h1 (le_of_lt h100)
    rwa [div_mul_cancel₀ _ (ne_of_gt h100)] at h
  have h2' : x * 100 < (b : ℚ) := by
    have h := mul_lt_mul_of_pos_right h2 h100
    rwa [div_mul_cancel₀ _ (ne_of_gt h100)] at h
  have hfl : a ≤ jsRound (x * 100) := by
    apply Int.le_floor.mpr
    linarith
  have hfu : jsRound (x * 100) ≤ b := by
    have hlt : jsRound (x * 100) < b + 1 := by
      apply Int.floor_lt.mpr
      push_cast
      linarith
    omega
  unfold round2
  constructor
  · exact (div_le_div_iff_of_pos_right h100).mpr (by exact_mod_cast hfl)
  · exact (div_le_div_iff_of_pos_right h100).mpr (by exact_mod_cast hfu)

theorem floor_int_bounds (x : ℚ) (a b : Int) (h1 : (a : ℚ) ≤ x) (h2 : x < (b : ℚ)) :
    a ≤ Int.floor x ∧ Int.floor x ≤ b := by
  constructor
  · exact Int.le_floor.mpr h1
  · have := Int.floor_lt.mpr h2
    omega

/-- C4: when every upstream fetch fails, the synthetic fallback sample for
every symbol has change_percent within plus or minus 2 and is_market_open
true exactly when the local time lies in the 09:15 to 15:30 session window;
specifically for symbol NIFTY (base price 21000) the sample's close_price
lies in the band 20580 to 21420 and its volume in the base range 800000 to
1200000. -/
theorem mock_fallback_bounds (symbol : String) (r1 r2 r3 r4 r5 : ℚ)
    (hour minute : Nat) (now : Int)
    (h1a : 0 ≤ r1) (h1b : r1 < 1) (h5a : 0 ≤ r5) (h5b : r5 < 1) (hm : minute < 60) :
    (-2 ≤ (generateMockMarketData symbol r1 r2 r3 r4 r5 hour minute now).change_percent
      ∧ (generateMockMarketData symbol r1 r2 r3 r4 r5 hour minute now).change_percent ≤ 2)
    ∧ ((generateMockMarketData symbol r1 r2 r3 r4 r5 hour minute now).is_market_open = true
      ↔ ((9 < hour ∨ (hour = 9 ∧ 15 ≤ minute)) ∧ (hour < 15 ∨ (hour = 15 ∧ minute ≤ 30))))
    ∧ (20580 ≤ (generateMockMarketData "NIFTY" r1 r2 r3 r4 r5 hour minute now).close_price
      ∧ (generateMockMarketData "NIFTY" r1 r2 r3 r4 r5 hour minute now).close_price ≤ 21420)
    ∧ (800000 ≤ (generateMockMarketData "NIFTY" r1 r2 r3 r4 r5 hour minute now).volume
      ∧ (generateMockMarketData "NIFTY" r1 r2 r3 r4 r5 hour minute now).volume ≤ 1200000) := by
  have hbp : basePriceOf "NIFTY" = 21000 := by norm_num [basePriceOf]
  have hbv : baseVolumeOf "NIFTY" = 1000000 := by norm_num [baseVolumeOf]
  simp only [generateMockMarketData, hbp, hbv]
  refine ⟨?_, ?_, ?_, ?_⟩
  · have h := round2_int_bounds ((r1 - 1 / 2) * 4) (-200) 200 (by push_cast; linarith)
      (by push_cast; linarith)
    constructor
    · have := h.1
      push_cast at this
      linarith
    · have := h.2
      push_cast at this
      linarith
  · unfold isMarketOpen
    simp only [decide_eq_true_eq]
    omega
  · have h := round2_int_bounds (21000 * (1 + (r1 - 1 / 2) * 4 / 100)) 2058000 2142000
      (by push_cast; linarith) (by push_cast; linarith)
    constructor
    · have := h.1
      push_cast at this
      linarith
    · have := h.2
      push_cast at this
      linarith
  · have h := floor_int_bounds (1000000 * (4 / 5 + r5 * (2 / 5))) 800000 1200000
      (by push_cast; linarith) (by push_cast; linarith)
    exact h

/-- Witness for mock_fallback_bounds with all draws one half at 10:00 local
time, instantiating the universal clauses at the non-NIFTY symbol SENSEX. -/
theorem mock_fallback_bounds_witness :
    (-2 ≤ (generateMockMarketData "SENSEX" (1/2) (1/2) (1/2) (1/2) (1/2) 10 0 0).change_percent
      ∧ (generateMockMarketData "SENSEX" (1/2) (1/2) (1/2) (1/2) (1/2) 10 0 0).change_percent ≤ 2)
    ∧ ((generateMockMarketData "SENSEX" (1/2) (1/2) (1/2) (1/2) (1/2) 10 0 0).is_market_open = true
      ↔ ((9 < 10 ∨ (10 = 9 ∧ 15 ≤ 0)) ∧ (10 < 15 ∨ (10 = 15 ∧ 0 ≤ 30))))
    ∧ (20580 ≤ (generateMockMarketData "NIFTY" (1/2) (1/2) (1/2) (1/2) (1/2) 10 0 0).close_price
      ∧ (generateMockMarketData "NIFTY" (1/2) (1/2) (1/2) (1/2) (1/2) 10 0 0).close_price ≤ 21420)
    ∧ (800000 ≤ (generateMockMarketData "NIFTY" (1/2) (1/2) (1/2) (1/2) (1/2) 10 0 0).volume
      ∧ (generateMockMarketData "NIFTY" (1/2) (1/2) (1/2) (1/2) (1/2) 10 0 0).volume ≤ 1200000) :=
  mock_fallback_bounds "SENSEX" (1/2) (1/2) (1/2) (1/2) (1/2) 10 0 0
    (by norm_num) (by norm_num) (by norm_num) (by norm_num) (by norm_num)

/-- C5: getLatestData returns the cached record unchanged when one is present
and strictly younger than 30 seconds; with no cached record, or one at least
30 seconds old, it synchronously refreshes the symbol via updateSymbolData
and returns that result. -/
theorem getLatest_cache_aside (st : RedisState) (symbol : String) (now : Int)
    (env : FetchEnv) (gf : Bool) :
    (∀ r : AggregatedRecord,
      (RedisService.get st ("market_data:" ++ symbol) now gf).1 = some r →
      now - r.lastUpdated < 30000 →
      getLatestData st symbol now env gf = (st, some r))
    ∧ (∀ r : AggregatedRecord,
      (RedisService.get st ("market_data:" ++ symbol) now gf).1 = some r →
      30000 ≤ now - r.lastUpdated →
      getLatestData st symbol now env gf
        = ((updateSymbolData st symbol env now).1, some (updateSymbolData st symbol env now).2.1))
    ∧ ((RedisService.get st ("market_data:" ++ symbol) now gf).1 = none →
      getLatestData st symbol now env gf
        = ((updateSymbolData st symbol env now).1, some (updateSymbolData st symbol env now).2.1)) := by
  refine ⟨?_, ?_, ?_⟩
  · intro r hr hfresh
    unfold getLatestData
    rw [hr]
    simp only [if_pos hfresh]
  · intro r hr hstale
    unfold getLatestData
    rw [hr]
    simp only [if_neg (by omega : ¬ now - r.lastUpdated < 30000)]
  · intro hr
    unfold getLatestData
    rw [hr]

/-- Witness for getLatest_cache_aside: a connected store holding a record
last updated 10 seconds ago returns that record unchanged. -/
theorem getLatest_cache_aside_witness :
    getLatestData ⟨true, [("market_data:NIFTY", (encodeRec sampleRec, some 100000))]⟩
      "NIFTY" 10000 ⟨none, none, none, 1/2, 1/2, 1/2, 1/2, 1/2, 10, 0, false, false⟩ false
    = (⟨true, [("market_data:NIFTY", (encodeRec sampleRec, some 100000))]⟩, some sampleRec) :=
  (getLatest_cache_aside ⟨true, [("market_data:NIFTY", (encodeRec sampleRec, some 100000))]⟩
      "NIFTY" 10000 ⟨none, none, none, 1/2, 1/2, 1/2, 1/2, 1/2, 10, 0, false, false⟩ false).1
    sampleRec (by decide) (by norm_num [sampleRec])

/-- C10: every record produced by updateSymbolData carries a present market
facet: a failed market fetch is replaced by the synthetic fallback before the
record is combined, cached and handed to publish, so only the technical and
sentiment facets can be null. -/
theorem market_facet_always_present (st : RedisState) (symbol : String)
    (env : FetchEnv) (now : Int) :
    ((updateSymbolData st symbol env now).2.1).market.isSome = true
    ∧ (updateSymbolData st symbol env now).2.2
        = { type := "market_data", symbol := symbol,
            data := some (updateSymbolData st symbol env now).2.1 }
    ∧ (env.marketUpstream = none →
        ((updateSymbolData st symbol env now).2.1).market
          = some (generateMockMarketData symbol env.r1 env.r2 env.r3 env.r4 env.r5
              env.hour env.minute now)) := by
  refine ⟨rfl, rfl, ?_⟩
  intro h
  simp only [updateSymbolData, fetchMarketData, h]

/-- Witness for market_facet_always_present with every upstream failing. -/
theorem market_facet_always_present_witness :
    ((updateSymbolData ⟨true, []⟩ "NIFTY"
        ⟨none, none, none, 1/2, 1/2, 1/2, 1/2, 1/2, 10, 0, false, false⟩ 0).2.1).market.isSome = true
    ∧ ((updateSymbolData ⟨true, []⟩ "NIFTY"
        ⟨none, none, none, 1/2, 1/2, 1/2, 1/2, 1/2, 10, 0, false, false⟩ 0).2.1).market
      = some (generateMockMarketData "NIFTY" (1/2) (1/2) (1/2) (1/2) (1/2) 10 0 0) :=
  ⟨(market_facet_always_present ⟨true, []⟩ "NIFTY"
      ⟨none, none, none, 1/2, 1/2, 1/2, 1/2, 1/2, 10, 0, false, false⟩ 0).1,
   (market_facet_always_present ⟨true, []⟩ "NIFTY"
      ⟨none, none, none, 1/2, 1/2, 1/2, 1/2, 1/2, 10, 0, false, false⟩ 0).2.2 rfl⟩

/-! ## Connection Registry and Router: WebSocketService

Embedding of `websocketService.js` together with the socket wiring in the
service entry point. `connectedClients` maps socket id to the client record
(`subscriptions` is the JS Set holding the interest set), `subscriptions`
maps symbol to the set of subscribed socket ids, and `rooms` models
socket.io room membership (`socket.join` and `socket.leave` on
`market-symbol` rooms), which is what `io.to(room).emit` broadcasts
through. Handlers return the resulting state together with the list of
events emitted towards clients, in emission order. Inbound message payloads
are modelled by `Payload`, whose non-list shapes cover strings, numbers,
objects and null; `Array.isArray` is `Payload.isArray`. -/

structure ClientInfo where
  subscriptions : List String
  lastActivity : Int
deriving DecidableEq, Repr

structure WSState where
  connectedClients : List (String × ClientInfo)
  subscriptions : List (String × List String)
  rooms : List (String × List String)
deriving DecidableEq, Repr

def initState : WSState := ⟨[], [], []⟩

inductive Payload
  | list (symbols : List String)
  | str (s : String)
  | num (n : Int)
  | obj
  | nul
deriving DecidableEq, Repr

def Payload.isArray : Payload → Bool
  | .list _ => true
  | _ => false

inductive WSEvent
  | connectionEstablished (cid : String)
  | subscriptionConfirmed (cid : String) (symbols : List String)
  | unsubscriptionConfirmed (cid : String) (symbols : List String)
  | marketData (cid : String) (symbol : String) (rec : AggregatedRecord)
  | technicalUpdate (cid : String) (symbol : String) (payload : String)
  | sentimentUpdate (cid : String) (symbol : String) (payload : String)
  | initialData (cid : String) (symbol : String) (data : Option AggregatedRecord)
deriving DecidableEq, Repr

/-- The socket.io room a symbol's updates are broadcast to. -/
def roomName (symbol : String) : String := "market-" ++ symbol

def roomJoin (name cid : String) (rooms : List (String × List String)) :
    List (String × List String) :=
  mapSet rooms name (setAdd cid ((mapGet rooms name).getD []))

def roomLeave (name cid : String) (rooms : List (String × List String)) :
    List (String × List String) :=
  match mapGet rooms name with
  | some members => mapSet rooms name (setDel cid members)
  | none => rooms

/-- Embeds `WebSocketService.handleConnection` (lines 154-171): register the
client with an empty interest set and emit the welcome message. -/
def handleConnection (st : WSState) (cid : String) (now : Int) : WSState × List WSEvent :=
  ({ st with connectedClients := mapSet st.connectedClients cid ⟨[], now⟩ },
   [.connectionEstablished cid])

/-- Embeds `WebSocketService.handleDisconnection` (lines 173-185): for a
known client, leave every room named by its interest set, then delete the
client record. The per-symbol subscriber index is not touched. -/
def handleDisconnection (st : WSState) (cid : String) : WSState × List WSEvent :=
  match mapGet st.connectedClients cid with
  | some ci =>
    ({ connectedClients := mapDel st.connectedClients cid
       subscriptions := st.subscriptions
       rooms := ci.subscriptions.foldl (fun rs s => roomLeave (roomName s) cid rs) st.rooms },
     [])
  | none => (st, [])

/-- One iteration of the `symbols.forEach` body of
`WebSocketService.handleSubscription` (lines 191-200): join the symbol's
room, add the symbol to the client's interest set, and add the client id to
the symbol's subscriber index entry, creating it when absent. -/
def subStep (cid : String) (st : WSState) (symbol : String) : WSState :=
  match mapGet st.connectedClients cid with
  | some ci =>
    { connectedClients := mapSet st.connectedClients cid
        { ci with subscriptions := setAdd symbol ci.subscriptions }
      subscriptions := mapSet st.subscriptions symbol
        (setAdd cid ((mapGet st.subscriptions symbol).getD []))
      rooms := roomJoin (roomName symbol) cid st.rooms }
  | none => st

/-- The `clientInfo.lastActivity = Date.now()` assignment. -/
def setActivity (st : WSState) (cid : String) (now : Int) : WSState :=
  match mapGet st.connectedClients cid with
  | some ci =>
    { st with connectedClients := mapSet st.connectedClients cid { ci with lastActivity := now } }
  | none => st

/-- Embeds `WebSocketService.handleSubscription` (lines 187-211): a no-op
unless the client is known and the payload is an array; otherwise process
every symbol, refresh the activity stamp and emit the confirmation. -/
def handleSubscription (st : WSState) (cid : String) (payload : Payload) (now : Int) :
    WSState × List WSEvent :=
  match payload with
  | .list symbols =>
    match mapGet st.connectedClients cid with
    | some _ =>
      (setActivity (symbols.foldl (subStep cid) st) cid now,
       [.subscriptionConfirmed cid symbols])
    | none => (st, [])
  | _ => (st, [])

/-- One iteration of the `symbols.forEach` body of
`WebSocketService.handleUnsubscription` (lines 217-228): leave the room,
delete the symbol from the interest set, delete the client id from the
symbol's index entry and drop the entry if it became empty. -/
def unsubStep (cid : String) (st : WSState) (symbol : String) : WSState :=
  match mapGet st.connectedClients cid with
  | some ci =>
    { connectedClients := mapSet st.connectedClients cid
        { ci with subscriptions := setDel symbol ci.subscriptions }
      subscriptions :=
        match mapGet st.subscriptions symbol with
        | some members =>
          if (setDel cid members).isEmpty then mapDel st.subscriptions symbol
          else mapSet st.subscriptions symbol (setDel cid members)
        | none => st.subscriptions
      rooms := roomLeave (roomName symbol) cid st.rooms }
  | none => st

/-- Embeds `WebSocketService.handleUnsubscription` (lines 213-239). -/
def handleUnsubscription (st : WSState) (cid : String) (payload : Payload) (now : Int) :
    WSState × List WSEvent :=
  match payload with
  | .list symbols =>
    match mapGet st.connectedClients cid with
    | some _ =>
      (setActivity (symbols.foldl (unsubStep cid) st) cid now,
       [.unsubscriptionConfirmed cid symbols])
    | none => (st, [])
  | _ => (st, [])

/-- Embeds `WebSocketService.handleMarketUpdate` (lines 44-73): for a bus
message of type market_data with truthy symbol and data, emit one
market-data event to every member of the symbol's room, then a
technical-update to each member if the record's technical facet is present,
then a sentiment-update to each member if the sentiment facet is present.
Registry state is not changed. -/
def handleMarketUpdate (st : WSState) (msg : BusMsg) : List WSEvent :=
  match msg.data with
  | some rec =>
    if msg.type = "market_data" ∧ msg.symbol ≠ "" then
      ((mapGet st.rooms (roomName msg.symbol)).getD []).map
          (fun c => WSEvent.marketData c msg.symbol rec)
        ++ (match rec.technical with
            | some t => ((mapGet st.rooms (roomName msg.symbol)).getD []).map
                (fun c => WSEvent.technicalUpdate c msg.symbol t)
            | none => [])
        ++ (match rec.sentiment with
            | some t => ((mapGet st.rooms (roomName msg.symbol)).getD []).map
                (fun c => WSEvent.sentimentUpdate c msg.symbol t)
            | none => [])
    else []
  | none => []

inductive WSOp
  | connect (cid : String) (now : Int)
  | disconnect (cid : String)
  | subscribe (cid : String) (payload : Payload) (now : Int)
  | unsubscribe (cid : String) (payload : Payload) (now : Int)
deriving DecidableEq, Repr

def applyOp (st : WSState) (op : WSOp) : WSState × List WSEvent :=
  match op with
  | .connect cid now => handleConnection st cid now
  | .disconnect cid => handleDisconnection st cid
  | .subscribe cid p now => handleSubscription st cid p now
  | .unsubscribe cid p now => handleUnsubscription st cid p now

/-- Run a sequence of registry operations from the empty registry. -/
def runOps (ops : List WSOp) : WSState :=
  ops.foldl (fun st op => (applyOp st op).1) initState

/-- socket.io never reuses a live or previously seen socket id; a trace is
admissible when every connect presents an id that is neither currently
connected nor lingering in the subscriber index. -/
def connectFresh (st : WSState) : WSOp → Bool
  | .connect cid _ =>
    (mapGet st.connectedClients cid).isNone
      && st.subscriptions.all (fun e => decide (cid ∉ e.2))
  | _ => true

def traceOK : WSState → List WSOp → Bool
  | _, [] => true
  | st, op :: ops => connectFresh st op && traceOK (applyOp st op).1 ops

/-! ## Registry invariant machinery -/

/-- The member list a symbol-keyed map associates to a key, empty when the
key is absent. -/
def entryOf (m : List (String × List String)) (k : String) : List String :=
  (mapGet m k).getD []

/-- The subscriber index entry for a symbol. -/
def idxMembers (st : WSState) (s : String) : List String :=
  entryOf st.subscriptions s

/-- The membership of a socket.io room. -/
def roomMembers (st : WSState) (n : String) : List String :=
  entryOf st.rooms n

theorem mapGet_mapSet_cases (m : List (String × α)) (k k' : String) (v : α) :
    mapGet (mapSet m k v) k' = if k' = k then some v else mapGet m k' := by
  by_cases h : k' = k
  · rw [if_pos h, h, mapGet_mapSet_self]
  · rw [if_neg h, mapGet_mapSet_ne _ _ _ _ h]

theorem mapGet_mapDel_cases (m : List (String × α)) (k k' : String)
    (hnd : (mapKeys m).Nodup) :
    mapGet (mapDel m k) k' = if k' = k then none else mapGet m k' := by
  by_cases h : k' = k
  · rw [if_pos h, h, mapGet_mapDel_self _ _ hnd]
  · rw [if_neg h, mapGet_mapDel_ne _ _ _ h]

theorem entryOf_mapSet (m : List (String × List String)) (k k' : String) (v : List String) :
    entryOf (mapSet m k v) k' = if k' = k then v else entryOf m k' := by
  unfold entryOf
  rw [mapGet_mapSet_cases]
  by_cases h : k' = k
  · rw [if_pos h, if_pos h]
    rfl
  · rw [if_neg h, if_neg h]

theorem entryOf_mapDel (m : List (String × List String)) (k k' : String)
    (hnd : (mapKeys m).Nodup) :
    entryOf (mapDel m k) k' = if k' = k then [] else entryOf m k' := by
  unfold entryOf
  rw [mapGet_mapDel_cases _ _ _ hnd]
  by_cases h : k' = k
  · rw [if_pos h, if_pos h]
    rfl
  · rw [if_neg h, if_neg h]

theorem mapGet_mem (m : List (String × α)) (k : String) (v : α)
    (h : mapGet m k = some v) : (k, v) ∈ m := by
  induction m with
  | nil => exact absurd h (by simp [mapGet])
  | cons p m ih =>
    obtain ⟨k0, w⟩ := p
    by_cases h0 : k0 = k
    · subst h0
      rw [mapGet, if_pos rfl] at h
      injection h with h
      subst h
      exact List.mem_cons_self _ _
    · rw [mapGet, if_neg h0] at h
      exact List.mem_cons_of_mem _ (ih h)

theorem mapSet_mapSet (m : List (String × α)) (k : String) (v w : α) :
    mapSet (mapSet m k v) k w = mapSet m k w := by
  induction m with
  | nil => simp [mapSet]
  | cons p m ih =>
    obtain ⟨k0, u⟩ := p
    by_cases h0 : k0 = k
    · rw [mapSet, if_pos h0, mapSet, if_pos rfl, mapSet, if_pos h0]
    · rw [mapSet, if_neg h0, mapSet, if_neg h0, mapSet, if_neg h0, ih]

theorem roomName_inj {a b : String} (h : roomName a = roomName b) : a = b := by
  unfold roomName at h
  have hd := congrArg String.data h
  rw [String.data_append, String.data_append] at hd
  have hab := List.append_cancel_left hd
  cases a
  cases b
  exact congrArg String.mk hab

theorem roomName_eq_iff (a b : String) : roomName a = roomName b ↔ a = b :=
  ⟨roomName_inj, fun h => by rw [h]⟩

theorem mem_setDel (a b : String) (s : List String) (h : s.Nodup) :
    b ∈ setDel a s ↔ b ≠ a ∧ b ∈ s :=
  List.Nodup.mem_erase_iff h

theorem setDel_nodup (a : String) (s : List String) (h : s.Nodup) : (setDel a s).Nodup :=
  List.Nodup.erase a h

theorem roomJoin_entry (rooms : List (String × List String)) (name cid n : String) :
    entryOf (roomJoin name cid rooms) n
      = if n = name then setAdd cid (entryOf rooms name) else entryOf rooms n := by
  unfold roomJoin
  exact entryOf_mapSet _ _ _ _

theorem roomLeave_entry (rooms : List (String × List String)) (name cid n : String) :
    entryOf (roomLeave name cid rooms) n
      = if n = name then setDel cid (entryOf rooms name) else entryOf rooms n := by
  unfold roomLeave
  cases hm : mapGet rooms name with
  | some members =>
    rw [entryOf_mapSet]
    by_cases h : n = name
    · rw [if_pos h, if_pos h]
      unfold entryOf
      rw [hm]
      rfl
    · rw [if_neg h, if_neg h]
  | none =>
    by_cases h : n = name
    · rw [if_pos h, h]
      unfold entryOf
      rw [hm]
      rfl
    · rw [if_neg h]

theorem foldLeave_nodup (syms : List String) (cid : String)
    (rooms : List (String × List String)) (h : ∀ n, (entryOf rooms n).Nodup) :
    ∀ n, (entryOf (syms.foldl (fun rs s => roomLeave (roomName s) cid rs) rooms) n).Nodup := by
  induction syms generalizing rooms with
  | nil => exact h
  | cons s ss ih =>
    intro n
    rw [List.foldl_cons]
    apply ih
    intro nn
    rw [roomLeave_entry]
    by_cases hn : nn = roomName s
    · rw [if_pos hn]
      exact setDel_nodup _ _ (h _)
    · rw [if_neg hn]
      exact h nn

theorem foldLeave_mem (syms : List String) (cid c : String)
    (rooms : List (String × List String)) (n : String)
    (h : ∀ nn, (entryOf rooms nn).Nodup) :
    c ∈ entryOf (syms.foldl (fun rs s => roomLeave (roomName s) cid rs) rooms) n
      ↔ c ∈ entryOf rooms n ∧ ¬(c = cid ∧ ∃ s ∈ syms, roomName s = n) := by
  induction syms generalizing rooms with
  | nil => simp
  | cons s ss ih =>
    rw [List.foldl_cons]
    rw [ih (roomLeave (roomName s) cid rooms) (by
      intro nn
      rw [roomLeave_entry]
      by_cases hn : nn = roomName s
      · rw [if_pos hn]
        exact setDel_nodup _ _ (h _)
      · rw [if_neg hn]
        exact h nn)]
    rw [roomLeave_entry]
    by_cases hn : n = roomName s
    · rw [if_pos hn]
      rw [mem_setDel _ _ _ (h _)]
      subst hn
      constructor
      · rintro ⟨⟨hne, hmem⟩, hrest⟩
        refine ⟨hmem, ?_⟩
        rintro ⟨rfl, _⟩
        exact hne rfl
      · rintro ⟨hmem, hneg⟩
        refine ⟨⟨?_, hmem⟩, ?_⟩
        · rintro rfl
          exact hneg ⟨rfl, s, List.mem_cons_self _ _, rfl⟩
        · rintro ⟨rfl, s', hs', hrs'⟩
          exact hneg ⟨rfl, s', List.mem_cons_of_mem _ hs', hrs'⟩
    · rw [if_neg hn]
      constructor
      · rintro ⟨hmem, hneg⟩
        refine ⟨hmem, ?_⟩
        rintro ⟨rfl, s', hs', hrs'⟩
        rcases List.mem_cons.mp hs' with rfl | hs''
        · exact hn hrs'.symm
        · exact hneg ⟨rfl, s', hs'', hrs'⟩
      · rintro ⟨hmem, hneg⟩
        refine ⟨hmem, ?_⟩
        rintro ⟨rfl, s', hs', hrs'⟩
        exact hneg ⟨rfl, s', List.mem_cons_of_mem _ hs', hrs'⟩

/-- The registry invariant: no JS map holds a key twice, every stored set is
duplicate-free, a symbol is in a live client's interest set exactly when the
client's id is in that symbol's subscriber index entry, and a room holds
exactly the live clients whose interest set contains its symbol. -/
structure RegInv (st : WSState) : Prop where
  cKeys : (mapKeys st.connectedClients).Nodup
  iKeys : (mapKeys st.subscriptions).Nodup
  subsNodup : ∀ cid ci, mapGet st.connectedClients cid = some ci → ci.subscriptions.Nodup
  idxNodup : ∀ s, (idxMembers st s).Nodup
  roomNodup : ∀ n, (roomMembers st n).Nodup
  iffIdx : ∀ cid ci s, mapGet st.connectedClients cid = some ci →
    (s ∈ ci.subscriptions ↔ cid ∈ idxMembers st s)
  roomChar : ∀ cid s, cid ∈ roomMembers st (roomName s) ↔
    ∃ ci, mapGet st.connectedClients cid = some ci ∧ s ∈ ci.subscriptions

theorem RegInv_init : RegInv initState := by
  refine ⟨?_, ?_, ?_, ?_, ?_, ?_, ?_⟩
  · simp [initState, mapKeys]
  · simp [initState, mapKeys]
  · intro cid ci h
    exact absurd h (by simp [initState, mapGet])
  · intro s
    simp [initState, idxMembers, entryOf, mapGet]
  · intro n
    simp [initState, roomMembers, entryOf, mapGet]
  · intro cid ci s h
    exact absurd h (by simp [initState, mapGet])
  · intro cid s
    simp [initState, roomMembers, entryOf, mapGet]

theorem subStep_none (st : WSState) (cid symbol : String)
    (hget : mapGet st.connectedClients cid = none) : subStep cid st symbol = st := by
  unfold subStep
  rw [hget]

theorem subStep_some (st : WSState) (cid symbol : String) (ci : ClientInfo)
    (hget : mapGet st.connectedClients cid = some ci) :
    subStep cid st symbol =
      { connectedClients := mapSet st.connectedClients cid
          ⟨setAdd symbol ci.subscriptions, ci.lastActivity⟩
        subscriptions := mapSet st.subscriptions symbol (setAdd cid (idxMembers st symbol))
        rooms := roomJoin (roomName symbol) cid st.rooms } := by
  unfold subStep
  rw [hget]
  all_goals rfl

theorem unsubStep_none (st : WSState) (cid symbol : String)
    (hget : mapGet st.connectedClients cid = none) : unsubStep cid st symbol = st := by
  unfold unsubStep
  rw [hget]

theorem unsubStep_some (st : WSState) (cid symbol : String) (ci : ClientInfo)
    (hget : mapGet st.connectedClients cid = some ci) :
    unsubStep cid st symbol =
      { connectedClients := mapSet st.connectedClients cid
          ⟨setDel symbol ci.subscriptions, ci.lastActivity⟩
        subscriptions :=
          match mapGet st.subscriptions symbol with
          | some members =>
            if (setDel cid members).isEmpty then mapDel st.subscriptions symbol
            else mapSet st.subscriptions symbol (setDel cid members)
          | none => st.subscriptions
        rooms := roomLeave (roomName symbol) cid st.rooms } := by
  unfold unsubStep
  rw [hget]

theorem setActivity_none (st : WSState) (cid : String) (now : Int)
    (hget : mapGet st.connectedClients cid = none) : setActivity st cid now = st := by
  unfold setActivity
  rw [hget]

theorem setActivity_some (st : WSState) (cid : String) (now : Int) (ci : ClientInfo)
    (hget : mapGet st.connectedClients cid = some ci) :
    setActivity st cid now =
      { st with connectedClients := mapSet st.connectedClients cid ⟨ci.subscriptions, now⟩ } := by
  unfold setActivity
  rw [hget]

theorem handleDisconnection_none (st : WSState) (cid : String)
    (hget : mapGet st.connectedClients cid = none) : handleDisconnection st cid = (st, []) := by
  unfold handleDisconnection
  rw [hget]

theorem handleDisconnection_some (st : WSState) (cid : String) (ci : ClientInfo)
    (hget : mapGet st.connectedClients cid = some ci) :
    handleDisconnection st cid =
      ({ connectedClients := mapDel st.connectedClients cid
         subscriptions := st.subscriptions
         rooms := ci.subscriptions.foldl (fun rs s => roomLeave (roomName s) cid rs) st.rooms },
       []) := by
  unfold handleDisconnection
  rw [hget]

theorem handleSubscription_some (st : WSState) (cid : String) (syms : List String)
    (now : Int) (x : ClientInfo) (hget : mapGet st.connectedClients cid = some x) :
    handleSubscription st cid (.list syms) now
      = (setActivity (syms.foldl (subStep cid) st) cid now,
         [.subscriptionConfirmed cid syms]) := by
  unfold handleSubscription
  rw [hget]

theorem handleSubscription_none (st : WSState) (cid : String) (syms : List String)
    (now : Int) (hget : mapGet st.connectedClients cid = none) :
    handleSubscription st cid (.list syms) now = (st, []) := by
  unfold handleSubscription
  rw [hget]

theorem handleSubscription_not_array (st : WSState) (cid : String) (p : Payload)
    (now : Int) (hp : p.isArray = false) :
    handleSubscription st cid p now = (st, []) := by
  cases p with
  | list syms => exact absurd hp (by simp [Payload.isArray])
  | str s => rfl
  | num n => rfl
  | obj => rfl
  | nul => rfl

theorem handleUnsubscription_some (st : WSState) (cid : String) (syms : List String)
    (now : Int) (x : ClientInfo) (hget : mapGet st.connectedClients cid = some x) :
    handleUnsubscription st cid (.list syms) now
      = (setActivity (syms.foldl (unsubStep cid) st) cid now,
         [.unsubscriptionConfirmed cid syms]) := by
  unfold handleUnsubscription
  rw [hget]

theorem handleUnsubscription_none (st : WSState) (cid : String) (syms : List String)
    (now : Int) (hget : mapGet st.connectedClients cid = none) :
    handleUnsubscription st cid (.list syms) now = (st, []) := by
  unfold handleUnsubscription
  rw [hget]

theorem handleUnsubscription_not_array (st : WSState) (cid : String) (p : Payload)
    (now : Int) (hp : p.isArray = false) :
    handleUnsubscription st cid p now = (st, []) := by
  cases p with
  | list syms => exact absurd hp (by simp [Payload.isArray])
  | str s => rfl
  | num n => rfl
  | obj => rfl
  | nul => rfl

theorem roomNodup_entry {st : WSState} (h : RegInv st) (n : String) :
    (entryOf st.rooms n).Nodup := h.roomNodup n

theorem idxNodup_entry {st : WSState} (h : RegInv st) (s : String) :
    (entryOf st.subscriptions s).Nodup := h.idxNodup s

theorem RegInv_setActivity (st : WSState) (cid : String) (now : Int) (h : RegInv st) :
    RegInv (setActivity st cid now) := by
  cases hget : mapGet st.connectedClients cid with
  | none =>
    rw [setActivity_none st cid now hget]
    exact h
  | some ci =>
    rw [setActivity_some st cid now ci hget]
    refine ⟨mapKeys_mapSet _ _ _ h.cKeys, h.iKeys, ?_, h.idxNodup, h.roomNodup, ?_, ?_⟩
    · intro cid' ci' hg
      rw [mapGet_mapSet_cases] at hg
      by_cases hc : cid' = cid
      · rw [if_pos hc] at hg
        injection hg with hg
        rw [← hg]
        exact h.subsNodup cid ci hget
      · rw [if_neg hc] at hg
        exact h.subsNodup _ _ hg
    · intro cid' ci' s hg
      rw [mapGet_mapSet_cases] at hg
      by_cases hc : cid' = cid
      · rw [if_pos hc] at hg
        injection hg with hg
        rw [hc]
        rw [← hg]
        exact h.iffIdx cid ci s hget
      · rw [if_neg hc] at hg
        exact h.iffIdx _ _ _ hg
    · intro cid' s
      show cid' ∈ roomMembers st (roomName s) ↔ _
      by_cases hc : cid' = cid
      · rw [hc]
        rw [h.roomChar cid s]
        constructor
        · rintro ⟨ci₂, hg₂, hs₂⟩
          rw [hget] at hg₂
          injection hg₂ with hg₂
          refine ⟨⟨ci.subscriptions, now⟩, by rw [mapGet_mapSet_self], ?_⟩
          rw [hg₂]
          exact hs₂
        · rintro ⟨ci₂, hg₂, hs₂⟩
          rw [mapGet_mapSet_self] at hg₂
          injection hg₂ with hg₂
          rw [← hg₂] at hs₂
          exact ⟨ci, hget, hs₂⟩
      · rw [h.roomChar cid' s]
        constructor
        · rintro ⟨ci₂, hg₂, hs₂⟩
          exact ⟨ci₂, by rw [mapGet_mapSet_ne _ _ _ _ hc]; exact hg₂, hs₂⟩
        · rintro ⟨ci₂, hg₂, hs₂⟩
          rw [mapGet_mapSet_ne _ _ _ _ hc] at hg₂
          exact ⟨ci₂, hg₂, hs₂⟩

theorem RegInv_subStep (st : WSState) (cid symbol : String) (h : RegInv st) :
    RegInv (subStep cid st symbol) := by
  cases hget : mapGet st.connectedClients cid with
  | none =>
    rw [subStep_none st cid symbol hget]
    exact h
  | some ci =>
    rw [subStep_some st cid symbol ci hget]
    refine ⟨mapKeys_mapSet _ _ _ h.cKeys, mapKeys_mapSet _ _ _ h.iKeys, ?_, ?_, ?_, ?_, ?_⟩
    · intro cid' ci' hg
      rw [mapGet_mapSet_cases] at hg
      by_cases hc : cid' = cid
      · rw [if_pos hc] at hg
        injection hg with hg
        rw [← hg]
        exact setAdd_nodup _ _ (h.subsNodup cid ci hget)
      · rw [if_neg hc] at hg
        exact h.subsNodup _ _ hg
    · intro s
      show (entryOf (mapSet st.subscriptions symbol (setAdd cid (idxMembers st symbol))) s).Nodup
      rw [entryOf_mapSet]
      by_cases hs : s = symbol
      · rw [if_pos hs]
        exact setAdd_nodup _ _ (h.idxNodup symbol)
      · rw [if_neg hs]
        exact h.idxNodup s
    · intro n
      show (entryOf (roomJoin (roomName symbol) cid st.rooms) n).Nodup
      rw [roomJoin_entry]
      by_cases hn : n = roomName symbol
      · rw [if_pos hn]
        exact setAdd_nodup _ _ (h.roomNodup _)
      · rw [if_neg hn]
        exact h.roomNodup n
    · intro cid' ci' s hg
      rw [mapGet_mapSet_cases] at hg
      show s ∈ ci'.subscriptions
        ↔ cid' ∈ entryOf (mapSet st.subscriptions symbol (setAdd cid (idxMembers st symbol))) s
      rw [entryOf_mapSet]
      by_cases hc : cid' = cid
      · rw [if_pos hc] at hg
        injection hg with hg
        rw [hc]
        rw [← hg]
        by_cases hs : s = symbol
        · subst hs
          rw [if_pos rfl]
          constructor
          · intro _
            exact (mem_setAdd _ _ _).mpr (Or.inr rfl)
          · intro _
            show s ∈ setAdd s ci.subscriptions
            exact (mem_setAdd _ _ _).mpr (Or.inr rfl)
        · rw [if_neg hs]
          show s ∈ setAdd symbol ci.subscriptions ↔ _
          rw [mem_setAdd]
          constructor
          · rintro (hmem | rfl)
            · exact (h.iffIdx cid ci s hget).mp hmem
            · exact absurd rfl hs
          · intro hmem
            exact Or.inl ((h.iffIdx cid ci s hget).mpr hmem)
      · rw [if_neg hc] at hg
        by_cases hs : s = symbol
        · subst hs
          rw [if_pos rfl, mem_setAdd]
          constructor
          · intro hmem
            exact Or.inl ((h.iffIdx cid' ci' s hg).mp hmem)
          · rintro (hmem | rfl)
            · exact (h.iffIdx cid' ci' s hg).mpr hmem
            · exact absurd rfl hc
        · rw [if_neg hs]
          exact h.iffIdx cid' ci' s hg
    · intro cid' s
      show cid' ∈ entryOf (roomJoin (roomName symbol) cid st.rooms) (roomName s) ↔ _
      rw [roomJoin_entry]
      by_cases hs : s = symbol
      · subst hs
        rw [if_pos rfl, mem_setAdd]
        by_cases hc : cid' = cid
        · rw [hc]
          constructor
          · intro _
            exact ⟨⟨setAdd s ci.subscriptions, ci.lastActivity⟩, by rw [mapGet_mapSet_self],
              (mem_setAdd _ _ _).mpr (Or.inr rfl)⟩
          · intro _
            exact Or.inr rfl
        · constructor
          · rintro (hmem | rfl)
            · obtain ⟨ci₂, hg₂, hs₂⟩ := (h.roomChar cid' s).mp hmem
              exact ⟨ci₂, by rw [mapGet_mapSet_ne _ _ _ _ hc]; exact hg₂, hs₂⟩
            · exact absurd rfl hc
          · rintro ⟨ci₂, hg₂, hs₂⟩
            rw [mapGet_mapSet_ne _ _ _ _ hc] at hg₂
            exact Or.inl ((h.roomChar cid' s).mpr ⟨ci₂, hg₂, hs₂⟩)
      · rw [if_neg (fun hh => hs (roomName_inj hh))]
        by_cases hc : cid' = cid
        · rw [hc]
          have hrc : cid ∈ entryOf st.rooms (roomName s)
              ↔ ∃ ci₂, mapGet st.connectedClients cid = some ci₂ ∧ s ∈ ci₂.subscriptions :=
            h.roomChar cid s
          rw [hrc]
          constructor
          · rintro ⟨ci₂, hg₂, hs₂⟩
            rw [hget] at hg₂
            injection hg₂ with hg₂
            refine ⟨⟨setAdd symbol ci.subscriptions, ci.lastActivity⟩,
              by rw [mapGet_mapSet_self], ?_⟩
            show s ∈ setAdd symbol ci.subscriptions
            rw [← hg₂] at hs₂
            exact (mem_setAdd _ _ _).mpr (Or.inl hs₂)
          · rintro ⟨ci₂, hg₂, hs₂⟩
            rw [mapGet_mapSet_self] at hg₂
            injection hg₂ with hg₂
            rw [← hg₂] at hs₂
            rcases (mem_setAdd _ _ _).mp hs₂ with hmem | rfl
            · exact ⟨ci, hget, hmem⟩
            · exact absurd rfl hs
        · rw [mapGet_mapSet_ne _ _ _ _ hc]
          exact h.roomChar cid' s

theorem unsub_idx_entry (st : WSState) (cid symbol s' : String)
    (hk : (mapKeys st.subscriptions).Nodup) :
    entryOf
      (match mapGet st.subscriptions symbol with
       | some members =>
         if (setDel cid members).isEmpty then mapDel st.subscriptions symbol
         else mapSet st.subscriptions symbol (setDel cid members)
       | none => st.subscriptions) s'
    = if s' = symbol then setDel cid (idxMembers st symbol) else idxMembers st s' := by
  cases hm : mapGet st.subscriptions symbol with
  | none =>
    by_cases hs : s' = symbol
    · rw [if_pos hs, hs]
      unfold idxMembers entryOf
      rw [hm]
      rfl
    · rw [if_neg hs]
      rfl
  | some members =>
    have hmem : idxMembers st symbol = members := by
      unfold idxMembers entryOf
      rw [hm]
      rfl
    show entryOf (if (setDel cid members).isEmpty then mapDel st.subscriptions symbol
      else mapSet st.subscriptions symbol (setDel cid members)) s' = _
    by_cases he : (setDel cid members).isEmpty
    · rw [if_pos he, entryOf_mapDel _ _ _ hk]
      by_cases hs : s' = symbol
      · rw [if_pos hs, if_pos hs, hmem]
        have hnil : setDel cid members = [] := by
          cases hd : setDel cid members with
          | nil => rfl
          | cons a l =>
            rw [hd] at he
            exact absurd he (by simp [List.isEmpty])
        rw [hnil]
      · rw [if_neg hs, if_neg hs]
        rfl
    · rw [if_neg he, entryOf_mapSet]
      by_cases hs : s' = symbol
      · rw [if_pos hs, if_pos hs, hmem]
      · rw [if_neg hs, if_neg hs]
        rfl

theorem unsub_idx_keys (st : WSState) (cid symbol : String)
    (hk : (mapKeys st.subscriptions).Nodup) :
    (mapKeys
      (match mapGet st.subscriptions symbol with
       | some members =>
         if (setDel cid members).isEmpty then mapDel st.subscriptions symbol
         else mapSet st.subscriptions symbol (setDel cid members)
       | none => st.subscriptions)).Nodup := by
  cases hm : mapGet st.subscriptions symbol with
  | none => exact hk
  | some members =>
    show (mapKeys (if (setDel cid members).isEmpty then mapDel st.subscriptions symbol
      else mapSet st.subscriptions symbol (setDel cid members))).Nodup
    by_cases he : (setDel cid members).isEmpty
    · rw [if_pos he]
      exact mapKeys_mapDel _ _ hk
    · rw [if_neg he]
      exact mapKeys_mapSet _ _ _ hk

theorem RegInv_unsubStep (st : WSState) (cid symbol : String) (h : RegInv st) :
    RegInv (unsubStep cid st symbol) := by
  cases hget : mapGet st.connectedClients cid with
  | none =>
    rw [unsubStep_none st cid symbol hget]
    exact h
  | some ci =>
    rw [unsubStep_some st cid symbol ci hget]
    refine ⟨mapKeys_mapSet _ _ _ h.cKeys, unsub_idx_keys st cid symbol h.iKeys, ?_, ?_, ?_, ?_, ?_⟩
    · intro cid' ci' hg
      rw [mapGet_mapSet_cases] at hg
      by_cases hc : cid' = cid
      · rw [if_pos hc] at hg
        injection hg with hg
        rw [← hg]
        exact setDel_nodup _ _ (h.subsNodup cid ci hget)
      · rw [if_neg hc] at hg
        exact h.subsNodup _ _ hg
    · intro s
      show (entryOf _ s).Nodup
      rw [unsub_idx_entry st cid symbol s h.iKeys]
      by_cases hs : s = symbol
      · rw [if_pos hs]
        exact setDel_nodup _ _ (h.idxNodup symbol)
      · rw [if_neg hs]
        exact h.idxNodup s
    · intro n
      show (entryOf (roomLeave (roomName symbol) cid st.rooms) n).Nodup
      rw [roomLeave_entry]
      by_cases hn : n = roomName symbol
      · rw [if_pos hn]
        exact setDel_nodup _ _ (h.roomNodup _)
      · rw [if_neg hn]
        exact h.roomNodup n
    · intro cid' ci' s hg
      rw [mapGet_mapSet_cases] at hg
      show s ∈ ci'.subscriptions ↔ cid' ∈ entryOf _ s
      rw [unsub_idx_entry st cid symbol s h.iKeys]
      by_cases hc : cid' = cid
      · rw [if_pos hc] at hg
        injection hg with hg
        rw [hc, ← hg]
        by_cases hs : s = symbol
        · rw [if_pos hs, hs]
          show symbol ∈ setDel symbol ci.subscriptions ↔ _
          rw [mem_setDel _ _ _ (h.subsNodup cid ci hget),
            mem_setDel _ _ _ (h.idxNodup symbol)]
          constructor
          · rintro ⟨hne, _⟩
            exact absurd rfl hne
          · rintro ⟨hne, _⟩
            exact absurd rfl hne
        · rw [if_neg hs]
          show s ∈ setDel symbol ci.subscriptions ↔ _
          rw [mem_setDel _ _ _ (h.subsNodup cid ci hget)]
          constructor
          · rintro ⟨_, hmem⟩
            exact (h.iffIdx cid ci s hget).mp hmem
          · intro hmem
            exact ⟨hs, (h.iffIdx cid ci s hget).mpr hmem⟩
      · rw [if_neg hc] at hg
        by_cases hs : s = symbol
        · rw [if_pos hs, mem_setDel _ _ _ (h.idxNodup symbol), hs]
          constructor
          · intro hmem
            exact ⟨hc, (h.iffIdx cid' ci' symbol hg).mp hmem⟩
          · rintro ⟨_, hmem⟩
            exact (h.iffIdx cid' ci' symbol hg).mpr hmem
        · rw [if_neg hs]
          exact h.iffIdx cid' ci' s hg
    · intro cid' s
      show cid' ∈ entryOf (roomLeave (roomName symbol) cid st.rooms) (roomName s) ↔ _
      rw [roomLeave_entry]
      by_cases hs : s = symbol
      · rw [if_pos (by rw [hs]), mem_setDel _ _ _ (roomNodup_entry h _)]
        by_cases hc : cid' = cid
        · rw [hc, hs]
          constructor
          · rintro ⟨hne, _⟩
            exact absurd rfl hne
          · rintro ⟨ci₂, hg₂, hs₂⟩
            rw [mapGet_mapSet_self] at hg₂
            injection hg₂ with hg₂
            rw [← hg₂] at hs₂
            rw [mem_setDel _ _ _ (h.subsNodup cid ci hget)] at hs₂
            exact absurd rfl hs₂.1
        · rw [hs]
          constructor
          · rintro ⟨_, hmem⟩
            obtain ⟨ci₂, hg₂, hs₂⟩ := (h.roomChar cid' symbol).mp hmem
            exact ⟨ci₂, by rw [mapGet_mapSet_ne _ _ _ _ hc]; exact hg₂, hs₂⟩
          · rintro ⟨ci₂, hg₂, hs₂⟩
            rw [mapGet_mapSet_ne _ _ _ _ hc] at hg₂
            exact ⟨hc, (h.roomChar cid' symbol).mpr ⟨ci₂, hg₂, hs₂⟩⟩
      · rw [if_neg (fun hh => hs (roomName_inj hh))]
        by_cases hc : cid' = cid
        · rw [hc]
          have hrc : cid ∈ entryOf st.rooms (roomName s)
              ↔ ∃ ci₂, mapGet st.connectedClients cid = some ci₂ ∧ s ∈ ci₂.subscriptions :=
            h.roomChar cid s
          rw [hrc]
          constructor
          · rintro ⟨ci₂, hg₂, hs₂⟩
            rw [hget] at hg₂
            injection hg₂ with hg₂
            refine ⟨⟨setDel symbol ci.subscriptions, ci.lastActivity⟩,
              by rw [mapGet_mapSet_self], ?_⟩
            show s ∈ setDel symbol ci.subscriptions
            rw [← hg₂] at hs₂
            rw [mem_setDel _ _ _ (h.subsNodup cid ci hget)]
            exact ⟨hs, hs₂⟩
          · rintro ⟨ci₂, hg₂, hs₂⟩
            rw [mapGet_mapSet_self] at hg₂
            injection hg₂ with hg₂
            rw [← hg₂] at hs₂
            rw [mem_setDel _ _ _ (h.subsNodup cid ci hget)] at hs₂
            exact ⟨ci, hget, hs₂.2⟩
        · rw [mapGet_mapSet_ne _ _ _ _ hc]
          exact h.roomChar cid' s

theorem RegInv_connect (st : WSState) (cid : String) (now : Int) (h : RegInv st)
    (hfresh1 : mapGet st.connectedClients cid = none)
    (hfresh2 : ∀ s, cid ∉ idxMembers st s) :
    RegInv (handleConnection st cid now).1 := by
  unfold handleConnection
  refine ⟨mapKeys_mapSet _ _ _ h.cKeys, h.iKeys, ?_, h.idxNodup, h.roomNodup, ?_, ?_⟩
  · intro cid' ci' hg
    rw [mapGet_mapSet_cases] at hg
    by_cases hc : cid' = cid
    · rw [if_pos hc] at hg
      injection hg with hg
      rw [← hg]
      exact List.nodup_nil
    · rw [if_neg hc] at hg
      exact h.subsNodup _ _ hg
  · intro cid' ci' s hg
    rw [mapGet_mapSet_cases] at hg
    by_cases hc : cid' = cid
    · rw [if_pos hc] at hg
      injection hg with hg
      rw [hc, ← hg]
      exact iff_of_false (List.not_mem_nil s) (hfresh2 s)
    · rw [if_neg hc] at hg
      exact h.iffIdx _ _ _ hg
  · intro cid' s
    show cid' ∈ roomMembers st (roomName s) ↔ _
    by_cases hc : cid' = cid
    · rw [hc]
      constructor
      · intro hmem
        obtain ⟨ci₂, hg₂, _⟩ := (h.roomChar cid s).mp hmem
        rw [hfresh1] at hg₂
        exact absurd hg₂ (by simp)
      · rintro ⟨ci₂, hg₂, hs₂⟩
        rw [mapGet_mapSet_self] at hg₂
        injection hg₂ with hg₂
        rw [← hg₂] at hs₂
        exact absurd hs₂ (List.not_mem_nil s)
    · rw [h.roomChar cid' s]
      constructor
      · rintro ⟨ci₂, hg₂, hs₂⟩
        exact ⟨ci₂, by rw [mapGet_mapSet_ne _ _ _ _ hc]; exact hg₂, hs₂⟩
      · rintro ⟨ci₂, hg₂, hs₂⟩
        rw [mapGet_mapSet_ne _ _ _ _ hc] at hg₂
        exact ⟨ci₂, hg₂, hs₂⟩

theorem RegInv_disconnect (st : WSState) (cid : String) (h : RegInv st) :
    RegInv (handleDisconnection st cid).1 := by
  cases hget : mapGet st.connectedClients cid with
  | none =>
    rw [handleDisconnection_none st cid hget]
    exact h
  | some ci =>
    rw [handleDisconnection_some st cid ci hget]
    refine ⟨mapKeys_mapDel _ _ h.cKeys, h.iKeys, ?_, h.idxNodup, ?_, ?_, ?_⟩
    · intro cid' ci' hg
      rw [mapGet_mapDel_cases _ _ _ h.cKeys] at hg
      by_cases hc : cid' = cid
      · rw [if_pos hc] at hg
        exact absurd hg (by simp)
      · rw [if_neg hc] at hg
        exact h.subsNodup _ _ hg
    · intro n
      show (entryOf (ci.subscriptions.foldl (fun rs s => roomLeave (roomName s) cid rs) st.rooms) n).Nodup
      exact foldLeave_nodup _ _ _ (roomNodup_entry h) n
    · intro cid' ci' s hg
      rw [mapGet_mapDel_cases _ _ _ h.cKeys] at hg
      by_cases hc : cid' = cid
      · rw [if_pos hc] at hg
        exact absurd hg (by simp)
      · rw [if_neg hc] at hg
        exact h.iffIdx _ _ _ hg
    · intro cid' s
      show cid' ∈ entryOf (ci.subscriptions.foldl (fun rs s => roomLeave (roomName s) cid rs) st.rooms)
        (roomName s) ↔ _
      rw [foldLeave_mem _ _ _ _ _ (roomNodup_entry h)]
      by_cases hc : cid' = cid
      · rw [hc]
        have hiff : cid ∈ entryOf st.rooms (roomName s) ↔ s ∈ ci.subscriptions := by
          have hrc : cid ∈ entryOf st.rooms (roomName s)
              ↔ ∃ ci₂, mapGet st.connectedClients cid = some ci₂ ∧ s ∈ ci₂.subscriptions :=
            h.roomChar cid s
          rw [hrc]
          constructor
          · rintro ⟨ci₂, hg₂, hs₂⟩
            rw [hget] at hg₂
            injection hg₂ with hg₂
            rw [hg₂]
            exact hs₂
          · intro hs₂
            exact ⟨ci, hget, hs₂⟩
        constructor
        · rintro ⟨hmem, hneg⟩
          exact absurd ⟨rfl, s, hiff.mp hmem, rfl⟩ hneg
        · rintro ⟨ci₂, hg₂, _⟩
          rw [mapGet_mapDel_self _ _ h.cKeys] at hg₂
          exact absurd hg₂ (by simp)
      · constructor
        · rintro ⟨hmem, _⟩
          obtain ⟨ci₂, hg₂, hs₂⟩ := (h.roomChar cid' s).mp hmem
          exact ⟨ci₂, by rw [mapGet_mapDel_ne _ _ _ hc]; exact hg₂, hs₂⟩
        · rintro ⟨ci₂, hg₂, hs₂⟩
          rw [mapGet_mapDel_ne _ _ _ hc] at hg₂
          refine ⟨(h.roomChar cid' s).mpr ⟨ci₂, hg₂, hs₂⟩, ?_⟩
          rintro ⟨hcc, _⟩
          exact hc hcc

theorem RegInv_subFold (syms : List String) (cid : String) (st : WSState) (h : RegInv st) :
    RegInv (syms.foldl (subStep cid) st) := by
  induction syms generalizing st with
  | nil => exact h
  | cons s ss ih =>
    rw [List.foldl_cons]
    exact ih _ (RegInv_subStep st cid s h)

theorem RegInv_unsubFold (syms : List String) (cid : String) (st : WSState) (h : RegInv st) :
    RegInv (syms.foldl (unsubStep cid) st) := by
  induction syms generalizing st with
  | nil => exact h
  | cons s ss ih =>
    rw [List.foldl_cons]
    exact ih _ (RegInv_unsubStep st cid s h)

theorem RegInv_applyOp (st : WSState) (op : WSOp) (h : RegInv st)
    (hok : connectFresh st op = true) : RegInv (applyOp st op).1 := by
  cases op with
  | connect cid now =>
    unfold connectFresh at hok
    rw [Bool.and_eq_true] at hok
    have h1 : mapGet st.connectedClients cid = none :=
      Option.isNone_iff_eq_none.mp hok.1
    have h2 : ∀ s, cid ∉ idxMembers st s := by
      intro s hmem
      unfold idxMembers entryOf at hmem
      cases hm : mapGet st.subscriptions s with
      | none =>
        rw [hm] at hmem
        exact absurd hmem (List.not_mem_nil cid)
      | some l =>
        rw [hm] at hmem
        have hin := mapGet_mem _ _ _ hm
        have hall := List.all_eq_true.mp hok.2 _ hin
        exact absurd hmem (of_decide_eq_true hall)
    exact RegInv_connect st cid now h h1 h2
  | disconnect cid => exact RegInv_disconnect st cid h
  | subscribe cid p now =>
    show RegInv (handleSubscription st cid p now).1
    cases p with
    | list syms =>
      cases hget : mapGet st.connectedClients cid with
      | none =>
        rw [handleSubscription_none st cid syms now hget]
        exact h
      | some x =>
        rw [handleSubscription_some st cid syms now x hget]
        exact RegInv_setActivity _ cid now (RegInv_subFold syms cid st h)
    | str s =>
      rw [handleSubscription_not_array st cid (.str s) now rfl]
      exact h
    | num n =>
      rw [handleSubscription_not_array st cid (.num n) now rfl]
      exact h
    | obj =>
      rw [handleSubscription_not_array st cid .obj now rfl]
      exact h
    | nul =>
      rw [handleSubscription_not_array st cid .nul now rfl]
      exact h
  | unsubscribe cid p now =>
    show RegInv (handleUnsubscription st cid p now).1
    cases p with
    | list syms =>
      cases hget : mapGet st.connectedClients cid with
      | none =>
        rw [handleUnsubscription_none st cid syms now hget]
        exact h
      | some x =>
        rw [handleUnsubscription_some st cid syms now x hget]
        exact RegInv_setActivity _ cid now (RegInv_unsubFold syms cid st h)
    | str s =>
      rw [handleUnsubscription_not_array st cid (.str s) now rfl]
      exact h
    | num n =>
      rw [handleUnsubscription_not_array st cid (.num n) now rfl]
      exact h
    | obj =>
      rw [handleUnsubscription_not_array st cid .obj now rfl]
      exact h
    | nul =>
      rw [handleUnsubscription_not_array st cid .nul now rfl]
      exact h

theorem RegInv_traceRun (ops : List WSOp) : ∀ st : WSState, RegInv st →
    traceOK st ops = true → RegInv (ops.foldl (fun s op => (applyOp s op).1) st) := by
  induction ops with
  | nil =>
    intro st h _
    exact h
  | cons op ops ih =>
    intro st h hok
    rw [traceOK, Bool.and_eq_true] at hok
    rw [List.foldl_cons]
    exact ih _ (RegInv_applyOp st op h hok.1) hok.2

theorem RegInv_runOps (ops : List WSOp) (h : traceOK initState ops = true) :
    RegInv (runOps ops) :=
  RegInv_traceRun ops initState RegInv_init h

/-- C1 (amended): over any admissible operation sequence from the empty
registry (socket ids never reused, as socket.io guarantees), the equivalence
between interest sets and the subscriber index holds for every
still-connected client: S is in C's interest set exactly when C's id is in
the index entry for S. It does not extend to disconnected clients, because
handleDisconnection leaves the subscriber index untouched. -/
theorem registry_index_iff_live (ops : List WSOp) (h : traceOK initState ops = true)
    (cid : String) (ci : ClientInfo) (s : String)
    (hc : mapGet (runOps ops).connectedClients cid = some ci) :
    s ∈ ci.subscriptions ↔ cid ∈ idxMembers (runOps ops) s :=
  (RegInv_runOps ops h).iffIdx cid ci s hc

/-- Witness for registry_index_iff_live on a concrete trace of one client
subscribing to one symbol. -/
theorem registry_index_iff_live_witness :
    ("s" ∈ (⟨["s"], (0 : Int)⟩ : ClientInfo).subscriptions
      ↔ "c" ∈ idxMembers (runOps [.connect "c" 0, .subscribe "c" (.list ["s"]) 0]) "s") :=
  registry_index_iff_live [.connect "c" 0, .subscribe "c" (.list ["s"]) 0] (by decide)
    "c" ⟨["s"], 0⟩ "s" (by decide)

/-- Counterexample to C1 as stated: after connect, subscribe to symbol s and
disconnect, the client record is gone but its id is still listed in the
subscriber index entry for s — handleDisconnection only leaves the socket
rooms and never purges the subscriptions map. -/
theorem disconnect_leaves_index_stale :
    mapGet (runOps [.connect "c" 0, .subscribe "c" (.list ["s"]) 0,
      .disconnect "c"]).connectedClients "c" = none
    ∧ (runOps [.connect "c" 0, .subscribe "c" (.list ["s"]) 0,
        .disconnect "c"]).subscriptions = [("s", ["c"])]
    ∧ (runOps [.connect "c" 0, .subscribe "c" (.list ["s"]) 0,
        .disconnect "c"]).rooms = [("market-s", [])] := by
  refine ⟨by decide, by decide, by decide⟩

/-- Event predicate: a market-data event addressed to the given client. -/
def isMarketDataFor (cid : String) : WSEvent → Bool
  | .marketData c _ _ => c == cid
  | _ => false

/-- Event predicate: a technical-update event addressed to the given client. -/
def isTechnicalFor (cid : String) : WSEvent → Bool
  | .technicalUpdate c _ _ => c == cid
  | _ => false

/-- Event predicate: a sentiment-update event addressed to the given client. -/
def isSentimentFor (cid : String) : WSEvent → Bool
  | .sentimentUpdate c _ _ => c == cid
  | _ => false

theorem countP_map_marketData (members : List String) (cid symbol : String)
    (rec : AggregatedRecord) :
    (members.map (fun c => WSEvent.marketData c symbol rec)).countP (isMarketDataFor cid)
      = members.count cid := by
  rw [List.countP_map]
  rfl

theorem countP_map_technical (members : List String) (cid symbol t : String) :
    (members.map (fun c => WSEvent.technicalUpdate c symbol t)).countP (isTechnicalFor cid)
      = members.count cid := by
  rw [List.countP_map]
  rfl

theorem countP_map_sentiment (members : List String) (cid symbol t : String) :
    (members.map (fun c => WSEvent.sentimentUpdate c symbol t)).countP (isSentimentFor cid)
      = members.count cid := by
  rw [List.countP_map]
  rfl

theorem count_nodup (members : List String) (cid : String) (h : members.Nodup) :
    members.count cid = if cid ∈ members then 1 else 0 :=
  List.count_eq_of_nodup h

/-- C2 (amended): for any admissible trace and any bus notification of type
market_data carrying a record, when the symbol is non-empty
handleMarketUpdate delivers to every connected client exactly one
market-data event when the client is subscribed to the symbol and zero
events otherwise, with a technical-update (resp. sentiment-update) delivered
to a subscribed client exactly once when that facet is present in the record
and never otherwise; a notification whose symbol is the empty string is
dropped whole by the data.symbol truthiness guard and no events at all are
delivered, even to clients subscribed to the empty symbol. -/
theorem routing_exact (ops : List WSOp) (h : traceOK initState ops = true)
    (msg : BusMsg) (rec : AggregatedRecord)
    (hd : msg.data = some rec) (ht : msg.type = "market_data")
    (cid : String) (ci : ClientInfo)
    (hc : mapGet (runOps ops).connectedClients cid = some ci) :
    (msg.symbol ≠ "" →
      ((handleMarketUpdate (runOps ops) msg).countP (isMarketDataFor cid)
          = if msg.symbol ∈ ci.subscriptions then 1 else 0)
      ∧ ((handleMarketUpdate (runOps ops) msg).countP (isTechnicalFor cid)
          = if msg.symbol ∈ ci.subscriptions ∧ rec.technical.isSome = true then 1 else 0)
      ∧ ((handleMarketUpdate (runOps ops) msg).countP (isSentimentFor cid)
          = if msg.symbol ∈ ci.subscriptions ∧ rec.sentiment.isSome = true then 1 else 0))
    ∧ (msg.symbol = "" → handleMarketUpdate (runOps ops) msg = []) := by
  constructor
  · intro hs
    have hInv := RegInv_runOps ops h
    have hnd : ((mapGet (runOps ops).rooms (roomName msg.symbol)).getD []).Nodup :=
      hInv.roomNodup (roomName msg.symbol)
    have hmemEq : cid ∈ (mapGet (runOps ops).rooms (roomName msg.symbol)).getD []
        ↔ msg.symbol ∈ ci.subscriptions := by
      have hrc : cid ∈ (mapGet (runOps ops).rooms (roomName msg.symbol)).getD []
          ↔ ∃ ci₂, mapGet (runOps ops).connectedClients cid = some ci₂
              ∧ msg.symbol ∈ ci₂.subscriptions :=
        hInv.roomChar cid msg.symbol
      rw [hrc]
      constructor
      · rintro ⟨ci₂, hg₂, hs₂⟩
        rw [hc] at hg₂
        injection hg₂ with hg₂
        rw [hg₂]
        exact hs₂
      · intro hs₂
        exact ⟨ci, hc, hs₂⟩
    simp only [handleMarketUpdate, hd]
    rw [if_pos ⟨ht, hs⟩]
    rw [List.countP_append, List.countP_append, List.countP_append, List.countP_append,
      List.countP_append, List.countP_append]
    rw [countP_map_marketData]
    have hz1 : ∀ t : String, ((((mapGet (runOps ops).rooms (roomName msg.symbol)).getD []).map
        (fun c => WSEvent.technicalUpdate c msg.symbol t)).countP (isMarketDataFor cid)) = 0 := by
      intro t
      apply List.countP_eq_zero.mpr
      intro a ha
      rw [List.mem_map] at ha
      obtain ⟨c, _, rfl⟩ := ha
      simp [isMarketDataFor]
    have hz2 : ∀ t : String, ((((mapGet (runOps ops).rooms (roomName msg.symbol)).getD []).map
        (fun c => WSEvent.sentimentUpdate c msg.symbol t)).countP (isMarketDataFor cid)) = 0 := by
      intro t
      apply List.countP_eq_zero.mpr
      intro a ha
      rw [List.mem_map] at ha
      obtain ⟨c, _, rfl⟩ := ha
      simp [isMarketDataFor]
    have hz3 : ∀ t : String, ((((mapGet (runOps ops).rooms (roomName msg.symbol)).getD []).map
        (fun c => WSEvent.marketData c msg.symbol rec)).countP (isTechnicalFor cid)) = 0 := by
      intro t
      apply List.countP_eq_zero.mpr
      intro a ha
      rw [List.mem_map] at ha
      obtain ⟨c, _, rfl⟩ := ha
      simp [isTechnicalFor]
    have hz4 : ∀ t : String, ((((mapGet (runOps ops).rooms (roomName msg.symbol)).getD []).map
        (fun c => WSEvent.sentimentUpdate c msg.symbol t)).countP (isTechnicalFor cid)) = 0 := by
      intro t
      apply List.countP_eq_zero.mpr
      intro a ha
      rw [List.mem_map] at ha
      obtain ⟨c, _, rfl⟩ := ha
      simp [isTechnicalFor]
    have hz5 : ∀ t : String, ((((mapGet (runOps ops).rooms (roomName msg.symbol)).getD []).map
        (fun c => WSEvent.marketData c msg.symbol rec)).countP (isSentimentFor cid)) = 0 := by
      intro t
      apply List.countP_eq_zero.mpr
      intro a ha
      rw [List.mem_map] at ha
      obtain ⟨c, _, rfl⟩ := ha
      simp [isSentimentFor]
    have hz6 : ∀ t : String, ((((mapGet (runOps ops).rooms (roomName msg.symbol)).getD []).map
        (fun c => WSEvent.technicalUpdate c msg.symbol t)).countP (isSentimentFor cid)) = 0 := by
      intro t
      apply List.countP_eq_zero.mpr
      intro a ha
      rw [List.mem_map] at ha
      obtain ⟨c, _, rfl⟩ := ha
      simp [isSentimentFor]
    have hcount := count_nodup ((mapGet (runOps ops).rooms (roomName msg.symbol)).getD []) cid hnd
    refine ⟨?_, ?_, ?_⟩
    · cases htech : rec.technical with
      | none =>
        cases hsent : rec.sentiment with
        | none => simpa [hcount] using if_congr hmemEq rfl rfl
        | some t2 => simp only [hz2 t2, List.countP_nil]; simpa [hcount] using if_congr hmemEq rfl rfl
      | some t1 =>
        cases hsent : rec.sentiment with
        | none => simp only [hz1 t1, List.countP_nil]; simpa [hcount] using if_congr hmemEq rfl rfl
        | some t2 =>
          simp only [hz1 t1, hz2 t2, List.countP_nil]
          simpa [hcount] using if_congr hmemEq rfl rfl
    · cases htech : rec.technical with
      | none =>
        cases hsent : rec.sentiment with
        | none => simp [hz3 "", hcount]
        | some t2 => simp [hz3 "", hz4 t2, hcount]
      | some t1 =>
        cases hsent : rec.sentiment with
        | none =>
          simp only [hz3 "", hz4 t1, List.countP_nil, countP_map_technical, hcount]
          by_cases hmem : msg.symbol ∈ ci.subscriptions
          · rw [if_pos (hmemEq.mpr hmem), if_pos ⟨hmem, rfl⟩]
          · rw [if_neg (fun hh => hmem (hmemEq.mp hh)), if_neg (fun hh => hmem hh.1)]
        | some t2 =>
          simp only [hz3 "", hz4 t2, List.countP_nil, countP_map_technical, hcount]
          by_cases hmem : msg.symbol ∈ ci.subscriptions
          · rw [if_pos (hmemEq.mpr hmem), if_pos ⟨hmem, rfl⟩]
          · rw [if_neg (fun hh => hmem (hmemEq.mp hh)), if_neg (fun hh => hmem hh.1)]
    · cases hsent : rec.sentiment with
      | none =>
        cases htech : rec.technical with
        | none => simp [hz5 "", hcount]
        | some t1 => simp [hz5 "", hz6 t1, hcount]
      | some t2 =>
        cases htech : rec.technical with
        | none =>
          simp only [hz5 "", hz6 t2, List.countP_nil, countP_map_sentiment, hcount]
          by_cases hmem : msg.symbol ∈ ci.subscriptions
          · rw [if_pos (hmemEq.mpr hmem), if_pos ⟨hmem, rfl⟩]
          · rw [if_neg (fun hh => hmem (hmemEq.mp hh)), if_neg (fun hh => hmem hh.1)]
        | some t1 =>
          simp only [hz5 "", hz6 t1, List.countP_nil, countP_map_sentiment, hcount]
          by_cases hmem : msg.symbol ∈ ci.subscriptions
          · rw [if_pos (hmemEq.mpr hmem), if_pos ⟨hmem, rfl⟩]
          · rw [if_neg (fun hh => hmem (hmemEq.mp hh)), if_neg (fun hh => hmem hh.1)]
  · intro hs0
    simp only [handleMarketUpdate, hd]
    rw [if_neg (fun hcon => hcon.2 hs0)]

/-- Witness for routing_exact: one client subscribed to NIFTY receives
exactly one market-data event and one technical-update (the record's
technical facet is present), and no sentiment-update (that facet is null). -/
theorem routing_exact_witness :
    ((handleMarketUpdate (runOps [.connect "c" 0, .subscribe "c" (.list ["NIFTY"]) 0])
        ⟨"market_data", "NIFTY", some sampleRec⟩).countP (isMarketDataFor "c")
      = if ("NIFTY" : String) ∈ (⟨["NIFTY"], 0⟩ : ClientInfo).subscriptions then 1 else 0)
    ∧ ((handleMarketUpdate (runOps [.connect "c" 0, .subscribe "c" (.list ["NIFTY"]) 0])
        ⟨"market_data", "NIFTY", some sampleRec⟩).countP (isTechnicalFor "c")
      = if ("NIFTY" : String) ∈ (⟨["NIFTY"], 0⟩ : ClientInfo).subscriptions
          ∧ sampleRec.technical.isSome = true then 1 else 0)
    ∧ ((handleMarketUpdate (runOps [.connect "c" 0, .subscribe "c" (.list ["NIFTY"]) 0])
        ⟨"market_data", "NIFTY", some sampleRec⟩).countP (isSentimentFor "c")
      = if ("NIFTY" : String) ∈ (⟨["NIFTY"], 0⟩ : ClientInfo).subscriptions
          ∧ sampleRec.sentiment.isSome = true then 1 else 0) :=
  (routing_exact [.connect "c" 0, .subscribe "c" (.list ["NIFTY"]) 0] (by decide)
    ⟨"market_data", "NIFTY", some sampleRec⟩ sampleRec rfl rfl
    "c" ⟨["NIFTY"], 0⟩ (by decide)).1 (by decide)

/-- Counterexample to C2 as stated: a client subscribed to the empty-string
symbol receives zero events from a bus notification for that symbol instead
of exactly one market-data event — the data.symbol truthiness guard in
handleMarketUpdate drops the whole notification. Such a notification is
producible by the pipeline itself, since updateSymbolData applied to the
empty symbol (reachable through a request-initial-data for it) publishes a
market_data bus message whose symbol is the empty string. -/
theorem routing_drops_empty_symbol :
    mapGet (runOps [.connect "c" 0, .subscribe "c" (.list [""]) 0]).connectedClients "c"
      = some ⟨[""], 0⟩
    ∧ handleMarketUpdate (runOps [.connect "c" 0, .subscribe "c" (.list [""]) 0])
        ⟨"market_data", "", some sampleRec⟩ = []
    ∧ (updateSymbolData ⟨true, []⟩ ""
        ⟨none, none, none, 1/2, 1/2, 1/2, 1/2, 1/2, 10, 0, false, false⟩ 0).2.2.symbol = ""
    ∧ (updateSymbolData ⟨true, []⟩ ""
        ⟨none, none, none, 1/2, 1/2, 1/2, 1/2, 1/2, 10, 0, false, false⟩ 0).2.2.type
      = "market_data" := by
  refine ⟨by decide, by decide, rfl, rfl⟩

/-- C7: subscribing the same connected client to the same symbol twice leaves
the subscriber index, the rooms and every client's interest set exactly as
after one subscription; only the activity stamp of the second call differs. -/
theorem subscribe_idempotent (st : WSState) (cid s : String) (now1 now2 : Int)
    (ci : ClientInfo) (hc : mapGet st.connectedClients cid = some ci) :
    ((handleSubscription (handleSubscription st cid (.list [s]) now1).1
        cid (.list [s]) now2).1).subscriptions
      = ((handleSubscription st cid (.list [s]) now1).1).subscriptions
    ∧ ((handleSubscription (handleSubscription st cid (.list [s]) now1).1
        cid (.list [s]) now2).1).rooms
      = ((handleSubscription st cid (.list [s]) now1).1).rooms
    ∧ (mapGet ((handleSubscription (handleSubscription st cid (.list [s]) now1).1
          cid (.list [s]) now2).1).connectedClients cid).map ClientInfo.subscriptions
      = (mapGet ((handleSubscription st cid (.list [s]) now1).1).connectedClients cid).map
          ClientInfo.subscriptions
    ∧ (∀ cid₂ : String, cid₂ ≠ cid →
        mapGet ((handleSubscription (handleSubscription st cid (.list [s]) now1).1
            cid (.list [s]) now2).1).connectedClients cid₂
          = mapGet ((handleSubscription st cid (.list [s]) now1).1).connectedClients cid₂) := by
  have h1 : (handleSubscription st cid (.list [s]) now1).1
      = { connectedClients := mapSet st.connectedClients cid ⟨setAdd s ci.subscriptions, now1⟩
          subscriptions := mapSet st.subscriptions s (setAdd cid (idxMembers st s))
          rooms := roomJoin (roomName s) cid st.rooms } := by
    rw [handleSubscription_some st cid [s] now1 ci hc]
    show setActivity ([s].foldl (subStep cid) st) cid now1 = _
    rw [List.foldl_cons, List.foldl_nil, subStep_some st cid s ci hc]
    rw [setActivity_some _ cid now1 ⟨setAdd s ci.subscriptions, ci.lastActivity⟩
      (by rw [mapGet_mapSet_self])]
    show WSState.mk
        (mapSet (mapSet st.connectedClients cid ⟨setAdd s ci.subscriptions, ci.lastActivity⟩)
          cid ⟨setAdd s ci.subscriptions, now1⟩)
        (mapSet st.subscriptions s (setAdd cid (idxMembers st s)))
        (roomJoin (roomName s) cid st.rooms) = _
    rw [mapSet_mapSet]
  have hsub2 : setAdd s (setAdd s ci.subscriptions) = setAdd s ci.subscriptions :=
    setAdd_mem_eq _ _ ((mem_setAdd _ _ _).mpr (Or.inr rfl))
  have hcid2 : setAdd cid (setAdd cid (idxMembers st s)) = setAdd cid (idxMembers st s) :=
    setAdd_mem_eq _ _ ((mem_setAdd _ _ _).mpr (Or.inr rfl))
  have hget1 : mapGet ((handleSubscription st cid (.list [s]) now1).1).connectedClients cid
      = some ⟨setAdd s ci.subscriptions, now1⟩ := by
    rw [h1]
    exact mapGet_mapSet_self _ _ _
  have h2 : (handleSubscription (handleSubscription st cid (.list [s]) now1).1
      cid (.list [s]) now2).1
      = { connectedClients := mapSet ((handleSubscription st cid (.list [s]) now1).1).connectedClients
            cid ⟨setAdd s ci.subscriptions, now2⟩
          subscriptions := ((handleSubscription st cid (.list [s]) now1).1).subscriptions
          rooms := ((handleSubscription st cid (.list [s]) now1).1).rooms } := by
    rw [handleSubscription_some _ cid [s] now2 ⟨setAdd s ci.subscriptions, now1⟩ hget1]
    show setActivity ([s].foldl (subStep cid) _) cid now2 = _
    rw [List.foldl_cons, List.foldl_nil,
      subStep_some _ cid s ⟨setAdd s ci.subscriptions, now1⟩ hget1]
    rw [setActivity_some _ cid now2 ⟨setAdd s (setAdd s ci.subscriptions), now1⟩
      (by rw [mapGet_mapSet_self])]
    show WSState.mk
        (mapSet (mapSet ((handleSubscription st cid (.list [s]) now1).1).connectedClients
            cid ⟨setAdd s (setAdd s ci.subscriptions), now1⟩)
          cid ⟨setAdd s (setAdd s ci.subscriptions), now2⟩)
        (mapSet ((handleSubscription st cid (.list [s]) now1).1).subscriptions s
          (setAdd cid (idxMembers (handleSubscription st cid (.list [s]) now1).1 s)))
        (roomJoin (roomName s) cid ((handleSubscription st cid (.list [s]) now1).1).rooms) = _
    rw [mapSet_mapSet, hsub2]
    have hidx1 : idxMembers ((handleSubscription st cid (.list [s]) now1).1) s
        = setAdd cid (idxMembers st s) := by
      rw [h1]
      show entryOf (mapSet st.subscriptions s (setAdd cid (idxMembers st s))) s = _
      rw [entryOf_mapSet, if_pos rfl]
    rw [hidx1, hcid2]
    have hidxset : mapSet ((handleSubscription st cid (.list [s]) now1).1).subscriptions s
        (setAdd cid (idxMembers st s))
        = ((handleSubscription st cid (.list [s]) now1).1).subscriptions := by
      apply mapSet_get_eq
      rw [h1]
      exact mapGet_mapSet_self _ _ _
    rw [hidxset]
    have hrooment : entryOf ((handleSubscription st cid (.list [s]) now1).1).rooms (roomName s)
        = setAdd cid (entryOf st.rooms (roomName s)) := by
      rw [h1]
      show entryOf (roomJoin (roomName s) cid st.rooms) (roomName s) = _
      rw [roomJoin_entry, if_pos rfl]
    have hroomset : roomJoin (roomName s) cid
        ((handleSubscription st cid (.list [s]) now1).1).rooms
        = ((handleSubscription st cid (.list [s]) now1).1).rooms := by
      unfold roomJoin
      rw [show ((mapGet ((handleSubscription st cid (.list [s]) now1).1).rooms
          (roomName s)).getD []) = entryOf ((handleSubscription st cid
          (.list [s]) now1).1).rooms (roomName s) from rfl]
      rw [hrooment, setAdd_mem_eq _ _ ((mem_setAdd _ _ _).mpr (Or.inr rfl))]
      apply mapSet_get_eq
      rw [h1]
      show mapGet (roomJoin (roomName s) cid st.rooms) (roomName s) = _
      unfold roomJoin
      exact mapGet_mapSet_self _ _ _
    rw [hroomset]
  refine ⟨by rw [h2], by rw [h2], ?_, ?_⟩
  · rw [h2]
    show (mapGet (mapSet ((handleSubscription st cid (.list [s]) now1).1).connectedClients
        cid (⟨setAdd s ci.subscriptions, now2⟩ : ClientInfo)) cid).map
      ClientInfo.subscriptions = _
    rw [mapGet_mapSet_self, hget1]
    rfl
  · intro cid₂ hne
    rw [h2]
    show mapGet (mapSet ((handleSubscription st cid (.list [s]) now1).1).connectedClients
      cid (⟨setAdd s ci.subscriptions, now2⟩ : ClientInfo)) cid₂ = _
    rw [mapGet_mapSet_ne _ _ _ _ hne]

/-- Witness for subscribe_idempotent on a freshly connected client. -/
theorem subscribe_idempotent_witness :
    ((handleSubscription (handleSubscription (runOps [.connect "c" 0]) "c"
        (.list ["s"]) 1).1 "c" (.list ["s"]) 2).1).subscriptions
      = ((handleSubscription (runOps [.connect "c" 0]) "c" (.list ["s"]) 1).1).subscriptions
    ∧ ((handleSubscription (handleSubscription (runOps [.connect "c" 0]) "c"
        (.list ["s"]) 1).1 "c" (.list ["s"]) 2).1).rooms
      = ((handleSubscription (runOps [.connect "c" 0]) "c" (.list ["s"]) 1).1).rooms :=
  ⟨(subscribe_idempotent (runOps [.connect "c" 0]) "c" "s" 1 2 ⟨[], 0⟩ (by decide)).1,
   (subscribe_idempotent (runOps [.connect "c" 0]) "c" "s" 1 2 ⟨[], 0⟩ (by decide)).2.1⟩

/-! ## Socket wiring of the service entry point

Embedding of the `io.on(connection)` handlers: the wired `subscribe` handler
only joins the symbol rooms (no registry update, no confirmation and no data
push), `unsubscribe` only leaves them, and the separate
`request-initial-data` handler reads `getLatestData` per requested symbol
and emits one market-data message per symbol. -/

/-- The wired `socket.on(subscribe)` handler (service entry point, lines
90-97): join each room when the payload is an array, emit nothing. -/
def ioSubscribe (rooms : List (String × List String)) (cid : String) (payload : Payload) :
    List (String × List String) × List WSEvent :=
  match payload with
  | .list symbols =>
    (symbols.foldl (fun rs s => roomJoin (roomName s) cid rs) rooms, [])
  | _ => (rooms, [])

/-- The wired `socket.on(unsubscribe)` handler (lines 100-107): leave each
room when the payload is an array, emit nothing. -/
def ioUnsubscribe (rooms : List (String × List String)) (cid : String) (payload : Payload) :
    List (String × List String) × List WSEvent :=
  match payload with
  | .list symbols =>
    (symbols.foldl (fun rs s => roomLeave (roomName s) cid rs) rooms, [])
  | _ => (rooms, [])

/-- The wired `socket.on(request-initial-data)` handler (lines 110-121): for
an array payload, sequentially call getLatestData per symbol (threading the
cache state, since a stale read triggers a refresh that writes the cache)
and emit one market-data message per symbol carrying the result. -/
def ioRequestInitialData (rst : RedisState) (cid : String) (payload : Payload)
    (now : Int) (env : String → FetchEnv) (gf : Bool) : RedisState × List WSEvent :=
  match payload with
  | .list symbols =>
    symbols.foldl (fun acc s =>
      ((getLatestData acc.1 s now (env s) gf).1,
       acc.2 ++ [WSEvent.initialData cid s (getLatestData acc.1 s now (env s) gf).2]))
      (rst, [])
  | _ => (rst, [])

/-- The event sequence request-initial-data produces: one market-data per
requested symbol, in order, carrying the getLatestData result at the cache
state reached so far. -/
def initialDataList (rst : RedisState) (cid : String) (now : Int)
    (env : String → FetchEnv) (gf : Bool) : List String → List WSEvent
  | [] => []
  | s :: ss =>
    WSEvent.initialData cid s (getLatestData rst s now (env s) gf).2
      :: initialDataList (getLatestData rst s now (env s) gf).1 cid now env gf ss

theorem ioRequestInitialData_foldl (cid : String) (now : Int)
    (env : String → FetchEnv) (gf : Bool) (syms : List String) :
    ∀ (rst : RedisState) (acc : List WSEvent),
      (syms.foldl (fun acc s =>
        ((getLatestData acc.1 s now (env s) gf).1,
         acc.2 ++ [WSEvent.initialData cid s (getLatestData acc.1 s now (env s) gf).2]))
        (rst, acc)).2
      = acc ++ initialDataList rst cid now env gf syms := by
  induction syms with
  | nil =>
    intro rst acc
    simp [initialDataList]
  | cons s ss ih =>
    intro rst acc
    rw [List.foldl_cons]
    rw [ih]
    simp [initialDataList]

/-- The snapshot-shaped events a client could receive: a market-data push
from the router or an initial-data message from request-initial-data. -/
def isSnapshotFor (cid : String) : WSEvent → Bool
  | .marketData c _ _ => c == cid
  | .initialData c _ _ => c == cid
  | _ => false

/-- Counterexample to C3 as stated: subscribing a connected client to NIFTY
emits only the subscription confirmation — the complete emission list of the
registry handler contains no market-data snapshot, and the wired io-level
subscribe handler emits nothing at all. No getLatestData read happens on
either subscribe path. -/
theorem subscribe_pushes_no_snapshot :
    (handleSubscription (runOps [.connect "c" 0]) "c" (.list ["NIFTY"]) 0).2
      = [.subscriptionConfirmed "c" ["NIFTY"]]
    ∧ ((handleSubscription (runOps [.connect "c" 0]) "c" (.list ["NIFTY"]) 0).2).countP
        (isSnapshotFor "c") = 0
    ∧ (ioSubscribe [] "c" (.list ["NIFTY"])).2 = [] := by
  refine ⟨by decide, by decide, by decide⟩

/-- C3 (amended): the subscribe operation updates the interest set, index and
rooms and emits only a subscription confirmation; it does not push a current
snapshot. The immediate snapshot is delivered only by the separate
request-initial-data message, which emits exactly one market-data event per
requested symbol carrying the result of getLatestData. -/
theorem subscribe_confirm_only_snapshot_on_request (st : WSState) (cid : String)
    (syms : List String) (now : Int) (x : ClientInfo)
    (hc : mapGet st.connectedClients cid = some x)
    (rooms : List (String × List String)) (rst : RedisState)
    (env : String → FetchEnv) (gf : Bool) (tnow : Int) :
    (handleSubscription st cid (.list syms) now).2 = [.subscriptionConfirmed cid syms]
    ∧ ((handleSubscription st cid (.list syms) now).2).countP (isSnapshotFor cid) = 0
    ∧ (ioSubscribe rooms cid (.list syms)).2 = []
    ∧ (ioRequestInitialData rst cid (.list syms) tnow env gf).2
        = initialDataList rst cid tnow env gf syms := by
  refine ⟨?_, ?_, rfl, ?_⟩
  · rw [handleSubscription_some st cid syms now x hc]
  · rw [handleSubscription_some st cid syms now x hc]
    rfl
  · show (syms.foldl _ (rst, ([] : List WSEvent))).2 = _
    rw [ioRequestInitialData_foldl]
    rfl

/-- Witness for subscribe_confirm_only_snapshot_on_request at a concrete
connected client, one symbol and a warm cache. -/
theorem subscribe_confirm_only_witness :
    (handleSubscription (runOps [.connect "c" 0]) "c" (.list ["NIFTY"]) 0).2
      = [.subscriptionConfirmed "c" ["NIFTY"]]
    ∧ (ioRequestInitialData ⟨true, [("market_data:NIFTY", (encodeRec sampleRec, some 100000))]⟩
        "c" (.list ["NIFTY"]) 10000
        (fun _ => ⟨none, none, none, 1/2, 1/2, 1/2, 1/2, 1/2, 10, 0, false, false⟩) false).2
      = initialDataList ⟨true, [("market_data:NIFTY", (encodeRec sampleRec, some 100000))]⟩
          "c" 10000 (fun _ => ⟨none, none, none, 1/2, 1/2, 1/2, 1/2, 1/2, 10, 0, false, false⟩)
          false ["NIFTY"] := by
  have h := subscribe_confirm_only_snapshot_on_request (runOps [.connect "c" 0]) "c"
    ["NIFTY"] 0 ⟨[], 0⟩ (by decide) []
    ⟨true, [("market_data:NIFTY", (encodeRec sampleRec, some 100000))]⟩
    (fun _ => ⟨none, none, none, 1/2, 1/2, 1/2, 1/2, 1/2, 10, 0, false, false⟩) false 10000
  exact ⟨h.1, h.2.2.2⟩

/-- C8: an inbound subscribe or unsubscribe whose symbols payload is not an
array (a string, a number, an object or null) is a silent no-op on every
handler: no registry, room or cache state changes and no event is emitted,
on both the registry handlers and the wired io-level handlers, including
request-initial-data. -/
theorem malformed_payload_noop (st : WSState) (rooms : List (String × List String))
    (rst : RedisState) (cid : String) (payload : Payload) (now tnow : Int)
    (env : String → FetchEnv) (gf : Bool) (hp : payload.isArray = false) :
    handleSubscription st cid payload now = (st, [])
    ∧ handleUnsubscription st cid payload now = (st, [])
    ∧ ioSubscribe rooms cid payload = (rooms, [])
    ∧ ioUnsubscribe rooms cid payload = (rooms, [])
    ∧ ioRequestInitialData rst cid payload tnow env gf = (rst, []) := by
  cases payload with
  | list syms => exact absurd hp (by simp [Payload.isArray])
  | str s => exact ⟨rfl, rfl, rfl, rfl, rfl⟩
  | num n => exact ⟨rfl, rfl, rfl, rfl, rfl⟩
  | obj => exact ⟨rfl, rfl, rfl, rfl, rfl⟩
  | nul => exact ⟨rfl, rfl, rfl, rfl, rfl⟩

/-- Witness for malformed_payload_noop with a string payload. -/
theorem malformed_payload_noop_witness :
    handleSubscription (runOps [.connect "c" 0]) "c" (.str "NIFTY") 0
      = (runOps [.connect "c" 0], [])
    ∧ ioRequestInitialData ⟨true, []⟩ "c" (.str "NIFTY") 0
        (fun _ => ⟨none, none, none, 1/2, 1/2, 1/2, 1/2, 1/2, 10, 0, false, false⟩) false
      = (⟨true, []⟩, []) := by
  have h := malformed_payload_noop (runOps [.connect "c" 0]) [] ⟨true, []⟩ "c"
    (.str "NIFTY") 0 0
    (fun _ => ⟨none, none, none, 1/2, 1/2, 1/2, 1/2, 1/2, 10, 0, false, false⟩) false rfl
  exact ⟨h.1, h.2.2.2.2⟩
